import Mathlib

/-!
# BootAnimation.cpp: a shallow embedding

The development follows `src/BootAnimation.cpp`:

* the two `initTexture` overloads (image decode result, texture sizing, GL upload calls),
* the tile layout loop of `android()`,
* the per-frame state update of `android()` (inversion, angle, fade alpha, exit flag),
* presenting, frame pacing, the exit poll and the loop itself.

C++ `float` and `double` values are represented by the rational number they denote.
Every floating-point operation is the exact operation followed by round-to-nearest,
ties-to-even, to 24 (`float`) or 53 (`double`) significant bits. All values that occur are
built from 32/64-bit integers by a handful of operations, so neither the exponent range
of the formats nor subnormal numbers come into play and the exponent is left unbounded.
`int` and `nsecs_t` values are unbounded integers (the sizes and timestamps of interest
stay far from the machine limits), except in `texDim`, where the shift can wrap.
-/

namespace BootAnimation

/-! ## Floating point -/

/-- Nearest integer to `q`, ties to the even neighbour. -/
def roundHalfEven (q : ℚ) : ℤ :=
  let f := ⌊q⌋
  let r := q - f
  if r < 1/2 then f
  else if 1/2 < r then f + 1
  else if f % 2 = 0 then f else f + 1

/-- Position of the leading one bit of `n` (`0` for `n < 2`); `fuel ≥ n` is always enough. -/
def ilog2 : ℕ → ℕ → ℕ
  | 0, _ => 0
  | fuel + 1, n => if n < 2 then 0 else ilog2 fuel (n / 2) + 1

/-- Binary exponent of a positive rational: the `e` with `2^e ≤ q < 2^(e+1)`. -/
def expOf (q : ℚ) : ℤ :=
  let c : ℤ := (ilog2 q.num.natAbs q.num.natAbs : ℤ) - (ilog2 q.den q.den : ℤ)
  if (2:ℚ) ^ c ≤ q then c else c - 1

/-- Rounding of a magnitude `q ≥ 0` to `p` significant bits, nearest-even. -/
def roundMag (p : ℕ) (q : ℚ) : ℚ :=
  if q = 0 then 0
  else
    let u : ℚ := (2:ℚ) ^ (expOf q - ((p : ℤ) - 1))
    (roundHalfEven (q / u) : ℚ) * u

/-- Round-to-nearest-even to `p` significant bits (sign and magnitude). -/
def roundNE (p : ℕ) (q : ℚ) : ℚ :=
  if q < 0 then -(roundMag p (-q)) else roundMag p q

/-- Rounding to C++ `float` (IEEE binary32). -/
def F32 (q : ℚ) : ℚ := roundNE 24 q

/-- Rounding to C++ `double` (IEEE binary64). -/
def F64 (q : ℚ) : ℚ := roundNE 53 q

/-- Conversion of an integer to `float`. -/
def i2f (n : ℤ) : ℚ := F32 (n : ℚ)

/-- Conversion of an integer to `double`. -/
def i2d (n : ℤ) : ℚ := F64 (n : ℚ)

/-- Conversion of a floating-point value to an integer type: truncation toward zero. -/
def truncToInt (q : ℚ) : ℤ := if q < 0 then -⌊-q⌋ else ⌊q⌋

/-! ## Platform helpers -/

/-- The platform helper `us2ns` of `utils/Timers.h`: microseconds to nanoseconds on `nsecs_t`. -/
def us2ns (v : ℤ) : ℤ := v * 1000

/-- The platform helper `ns2us` of `utils/Timers.h`: nanoseconds to microseconds on `nsecs_t`
(C++ integer division). -/
def ns2us (v : ℤ) : ℤ := Int.tdiv v 1000

/-- Leading zeros of `w` in a window of `n` bits (`w < 2^n`). -/
def clzAux : ℕ → ℕ → ℕ
  | 0, _ => 0
  | n + 1, w => if w < 2 ^ n then clzAux n w + 1 else 0

/-- The compiler builtin `__builtin_clz` on a 32-bit word (meaningful for `0 < w < 2^32`). -/
def clz32 (w : ℕ) : ℕ := clzAux 32 w

/-- Wrap-around of a value to the 32-bit two's complement `int` range. -/
def wrap32 (n : ℤ) : ℤ := (n + 2 ^ 31) % 2 ^ 32 - 2 ^ 31

/-- `n` is a power of two. -/
def IsPow2 (n : ℤ) : Prop := ∃ k : ℕ, n = 2 ^ k

/-! ## Image loader: `initTexture` -/

/-- Status codes of `utils/Errors.h` that `initTexture` returns. -/
inductive Status
  | NO_ERROR
  | NO_INIT
  deriving DecidableEq, Repr

/-- Pixel configurations of `SkBitmap::Config`. -/
inductive Config
  | kNo_Config
  | kA1_Config
  | kA8_Config
  | kIndex8_Config
  | kRGB_565_Config
  | kARGB_4444_Config
  | kARGB_8888_Config
  | kRLE_Index8_Config
  deriving DecidableEq, Repr

/-- What `initTexture` reads from the `SkBitmap` after decoding: `getConfig()`, `width()`,
`height()`. A decode that fails leaves the bitmap empty: `kNo_Config`, `0 x 0`. -/
structure Bitmap where
  config : Config
  width : ℤ
  height : ℤ
  deriving DecidableEq, Repr

/-- GL pixel formats used by the uploads. -/
inductive GLFormat
  | GL_ALPHA
  | GL_RGB
  | GL_RGBA
  deriving DecidableEq, Repr

/-- GL pixel types used by the uploads. -/
inductive GLType
  | GL_UNSIGNED_BYTE
  | GL_UNSIGNED_SHORT_4_4_4_4
  | GL_UNSIGNED_SHORT_5_6_5
  deriving DecidableEq, Repr

/-- The GL calls `initTexture` issues. `pixels` of `glTexImage2D` tells whether the decoded
pixels are passed (`true`) or a null pointer (`false`). -/
inductive GLCall
  | glGenTextures
  | glBindTexture
  | glTexImage2D (format : GLFormat) (width height : ℤ) (type : GLType) (pixels : Bool)
  | glTexSubImage2D (width height : ℤ) (format : GLFormat) (type : GLType)
  | glTexParameteriv_crop (c0 c1 c2 c3 : ℤ)
  | glTexParameterx_MIN_FILTER_NEAREST
  | glTexParameterx_MAG_FILTER_NEAREST
  | glTexParameterx_WRAP_S_REPEAT
  | glTexParameterx_WRAP_T_REPEAT
  deriving DecidableEq, Repr

/-- A call that hands pixel storage or pixel data to the GPU. -/
def GLCall.isUpload : GLCall → Bool
  | .glTexImage2D _ _ _ _ _ => true
  | .glTexSubImage2D _ _ _ _ => true
  | _ => false

/-- The sub-image call of the padded upload path. -/
def GLCall.isSubImage : GLCall → Bool
  | .glTexSubImage2D _ _ _ _ => true
  | _ => false

/-- Modelled from the spec: `Texture` of the header `BootAnimation.h`, "{ handle, width: int,
height: int }"; `w` and `h` are the fields `initTexture` writes, the handle is left out. -/
structure Texture where
  w : ℤ
  h : ℤ
  deriving DecidableEq, Repr

/-- Result of `initTexture(Texture*, AssetManager&, const char*)`. -/
structure AssetResult where
  status : Status
  texture : Option Texture
  calls : List GLCall
  deriving DecidableEq, Repr

/-- The switch on `bitmap.getConfig()` of `initTexture(Texture*, AssetManager&, const char*)`. -/
def uploadAsset (b : Bitmap) : List GLCall :=
  match b.config with
  | .kA8_Config =>
    [.glTexImage2D .GL_ALPHA b.width b.height .GL_UNSIGNED_BYTE true]
  | .kARGB_4444_Config =>
    [.glTexImage2D .GL_RGBA b.width b.height .GL_UNSIGNED_SHORT_4_4_4_4 true]
  | .kARGB_8888_Config =>
    [.glTexImage2D .GL_RGBA b.width b.height .GL_UNSIGNED_BYTE true]
  | .kRGB_565_Config =>
    [.glTexImage2D .GL_RGB b.width b.height .GL_UNSIGNED_SHORT_5_6_5 true]
  | _ => []

/-- `initTexture(Texture* texture, AssetManager& assets, const char* name)`.
`file = none`: `fopen` failed. `file = some b`: the file was read and `b` is the bitmap after
`SkImageDecoder::DecodeMemory`, whose result the function does not look at. -/
def initTextureAsset (file : Option Bitmap) : AssetResult :=
  match file with
  | none => { status := .NO_INIT, texture := none, calls := [] }
  | some b =>
    let w := b.width
    let h := b.height
    let scale : ℚ := F32 (F32 (3 / 2) * i2f 2)
    let texture : Texture :=
      { w := truncToInt (F32 (i2f w * scale)), h := truncToInt (F32 (i2f h * scale)) }
    { status := .NO_ERROR
      texture := some texture
      calls := [.glGenTextures, .glBindTexture] ++ uploadAsset b ++
        [.glTexParameteriv_crop 0 h w (-h),
         .glTexParameterx_MIN_FILTER_NEAREST, .glTexParameterx_MAG_FILTER_NEAREST,
         .glTexParameterx_WRAP_S_REPEAT, .glTexParameterx_WRAP_T_REPEAT] }

/-- Texture dimension of `initTexture(void*, size_t)`:
`int tw = 1 << (31 - __builtin_clz(w)); if (tw < w) tw <<= 1;` for `0 < w < 2^31`. -/
def texDim (w : ℤ) : ℤ :=
  let tw : ℤ := 2 ^ (31 - clz32 w.toNat)
  if tw < w then wrap32 (tw * 2) else tw

/-- The switch on `bitmap.getConfig()` of `initTexture(void*, size_t)`. -/
def uploadBuffer (b : Bitmap) : List GLCall :=
  let w := b.width
  let h := b.height
  let tw := texDim w
  let th := texDim h
  match b.config with
  | .kARGB_8888_Config =>
    if tw ≠ w ∨ th ≠ h then
      [.glTexImage2D .GL_RGBA tw th .GL_UNSIGNED_BYTE false,
       .glTexSubImage2D w h .GL_RGBA .GL_UNSIGNED_BYTE]
    else [.glTexImage2D .GL_RGBA tw th .GL_UNSIGNED_BYTE true]
  | .kRGB_565_Config =>
    if tw ≠ w ∨ th ≠ h then
      [.glTexImage2D .GL_RGB tw th .GL_UNSIGNED_SHORT_5_6_5 false,
       .glTexSubImage2D w h .GL_RGB .GL_UNSIGNED_SHORT_5_6_5]
    else [.glTexImage2D .GL_RGB tw th .GL_UNSIGNED_SHORT_5_6_5 true]
  | _ => []

/-- `initTexture(void* buffer, size_t len)`.
`codec = none`: `SkImageDecoder::Factory` returned a null codec; the function dereferences it
(`codec->setDitherImage(false)` precedes the null test), so no result is defined.
`codec = some b`: `b` is the bitmap after `codec->decode`, whose result the function does not
look at. For the empty bitmap of a failed decode `tw` and `th` come from `__builtin_clz(0)`,
whose value is unspecified; the `default` case of the switch does not use them. -/
def initTextureBuffer (codec : Option Bitmap) : Option (Status × List GLCall) :=
  match codec with
  | none => none
  | some b =>
    some (.NO_ERROR, uploadBuffer b ++ [.glTexParameteriv_crop 0 b.height b.width (-b.height)])

/-! ## Tile layout loop of `android()` -/

/-- Sizes the tile loop reads: the tile `mAndroid[0].w`, `mAndroid[0].h` and the display
`mWidth`, `mHeight` (all `int`). -/
structure Layout where
  w : ℤ
  h : ℤ
  mWidth : ℤ
  mHeight : ℤ
  deriving DecidableEq, Repr

/-- A drawn tile: the grid step `(x, y)` and the position `(finalX, finalY)` it is drawn at. -/
structure Tile where
  x : ℤ
  y : ℤ
  finalX : ℤ
  finalY : ℤ
  deriving DecidableEq, Repr

/-- `finalX`, `finalY` of grid step `(x, y)`: lines 403-409 and 413-420. -/
def finalPos (c : Layout) (bInverted : Bool) (x y : ℤ) : ℤ × ℤ :=
  let xChange : ℤ := (Int.tmod (Int.tdiv y c.h) 3) * (c.w - Int.tdiv c.w 3 - Int.tdiv c.w 3)
  let yChange : ℤ := (Int.tmod (Int.tdiv x c.w) 3) * (Int.tdiv c.h 3)
  let xChange2 : ℤ := Int.tdiv (Int.tdiv y c.h) 3
  let x3 : ℤ := (Int.tdiv (Int.tdiv x c.w) 3) * c.w
  let xChange : ℤ := truncToInt (F32 (i2f xChange - F32 (i2f x3 * F32 (i2f 2 / i2f 3))))
  let yChange : ℤ := truncToInt (F32 (i2f yChange - F32 (i2f x3 * F32 (i2f 1 / i2f 3))))
  let finalX : ℤ :=
    truncToInt (F32 (F32 (i2f (x + xChange + xChange2 * c.w) - F32 (i2f c.mWidth * i2f 2)) - i2f 1))
  let finalY : ℤ :=
    truncToInt (F32 (F32 (i2f (y - yChange) - F32 (i2f c.mHeight * i2f 2)) - i2f 1))
  if bInverted then
    (truncToInt (F32 (i2f finalX - F32 (F32 (i2f c.w / i2f 3) + F32 (i2f c.h / i2f 3)))),
     truncToInt (F32 (i2f finalY - F32 (i2f c.h / i2f 3))))
  else (finalX, finalY)

/-- Body of the inner loop for grid step `(x, y)`: the modulo-3 test of line 411 and the two
nested tests of lines 422 and 424; `some` is a `glDrawArrays` at that position. -/
def tileStep (c : Layout) (bInverted : Bool) (x y : ℤ) : Option Tile :=
  if Int.tmod (Int.tdiv x c.w) 3 ≠ 0 then
    let p := finalPos c bInverted x y
    if p.1 < c.mWidth ∨ p.2 < c.mHeight then
      if p.1 > -c.w ∧ p.2 > -c.h then some ⟨x, y, p.1, p.2⟩ else none
    else none
  else none

/-- The inner loop `for (int y = 0; y < mHeight * 4.f; y += mAndroid[0].h)` from `y` on;
`none` when the fuel runs out before the loop condition fails. -/
def rowLoop (c : Layout) (bInverted : Bool) (x : ℤ) : ℕ → ℤ → Option (List Tile)
  | 0, _ => none
  | fuel + 1, y =>
    if i2f y < F32 (i2f c.mHeight * i2f 4) then
      match rowLoop c bInverted x fuel (y + c.h) with
      | none => none
      | some rest =>
        match tileStep c bInverted x y with
        | some t => some (t :: rest)
        | none => some rest
    else some []

/-- The outer loop `for (int x = 0; x < mWidth * 4.f; x += mAndroid[0].w)` from `x` on. -/
def colLoop (c : Layout) (bInverted : Bool) : ℕ → ℤ → Option (List Tile)
  | 0, _ => none
  | fuel + 1, x =>
    if i2f x < F32 (i2f c.mWidth * i2f 4) then
      match rowLoop c bInverted x (4 * c.mHeight.toNat + 1) 0 with
      | none => none
      | some col =>
        match colLoop c bInverted fuel (x + c.w) with
        | none => none
        | some rest => some (col ++ rest)
    else some []

/-- Tiles drawn by one pass of the tile layout loop (lines 399-436), in drawing order. -/
def tilePositions (c : Layout) (bInverted : Bool) : Option (List Tile) :=
  colLoop c bInverted (4 * c.mWidth.toNat + 1) 0

/-- The layout of the scenario "tile 64 x 64 on a 256 x 256 display". -/
def layout64 : Layout := { w := 64, h := 64, mWidth := 256, mHeight := 256 }

/-- The tile rectangle `[finalX, finalX + w) x [finalY, finalY + h)` overlaps the display
`[0, mWidth) x [0, mHeight)`. -/
def overlapsDisplay (c : Layout) (t : Tile) : Prop :=
  t.finalX < c.mWidth ∧ t.finalY < c.mHeight ∧ t.finalX > -c.w ∧ t.finalY > -c.h

instance (c : Layout) (t : Tile) : Decidable (overlapsDisplay c t) := by
  unfold overlapsDisplay; infer_instance

/-! ## The render loop of `android()` -/

/-- Variables of `android()` that live across iterations, and `Thread::mExitPending`. -/
structure LoopState where
  startTime : ℤ
  fadeTime : ℤ
  nextInvert : ℚ
  bInverted : Bool
  fading : Bool
  shouldExit : Bool
  mExitPending : Bool
  deriving DecidableEq, Repr

/-- What one iteration reads from its environment. -/
structure FrameInput where
  /-- Value of `systemTime()` at line 362. -/
  now : ℤ
  /-- Whether `eglSwapBuffers` at line 438 returned something other than `EGL_FALSE`. -/
  swapOk : Bool
  /-- Value of `systemTime()` at line 443. -/
  tSleep : ℤ
  /-- Value of `atoi` applied to the property `service.bootanim.exit` in `checkExit`. -/
  exitnow : ℤ
  /-- Value of `systemTime()` at line 451. -/
  tFade : ℤ
  deriving DecidableEq, Repr

/-- Observable actions of the loop. `drawTiles` stands for one pass of the tile layout loop
with the given rotation angle and inversion flag. -/
inductive Event
  | glColor4f (r g b a : ℚ)
  | glClearColor (r g b a : ℚ)
  | glClear
  | drawTiles (angle : ℚ) (bInverted : Bool)
  | eglSwapBuffers (ok : Bool)
  | usleep (us : ℤ)
  | checkExit
  | glDeleteTextures
  deriving DecidableEq, Repr

/-- The divisor `us2ns( 8333 / 1.65f )` of line 372, in nanoseconds. -/
def framePeriod : ℤ := us2ns (truncToInt (F32 (i2f 8333 / F32 (165 / 100))))

/-- Whether the test `nextInvert != -1 && time >= nextInvert` of line 365 succeeds. -/
def toggles (s : LoopState) (now : ℤ) : Bool :=
  decide (s.nextInvert ≠ -1 ∧ s.nextInvert ≤ i2d (now - s.startTime))

/-- `startTime` after lines 362-370. -/
def startTimeOf (s : LoopState) (now : ℤ) : ℤ :=
  if toggles s now then now else s.startTime

/-- `time` after lines 362-370. -/
def timeOf (s : LoopState) (now : ℤ) : ℚ :=
  if toggles s now then i2d (now - startTimeOf s now) else i2d (now - s.startTime)

/-- `angle` right after line 372, `float( time / us2ns( 8333 / 1.65f ) )`. -/
def rawAngle (time : ℚ) : ℚ := F32 (F64 (time / i2d framePeriod))

/-- `angle` after lines 372-379. -/
def angleOf (time : ℚ) : ℚ :=
  if i2f 90 ≤ rawAngle time then i2f 90 else rawAngle time

/-- `nextInvert` after lines 374-379. -/
def nextInvertOf (nextInvert time : ℚ) : ℚ :=
  if i2f 90 ≤ rawAngle time then
    if nextInvert = -1 then F64 (time + i2d (us2ns 55000)) else nextInvert
  else nextInvert

/-- `alpha` after lines 381-388. -/
def alphaOf (fading : Bool) (now fadeTime : ℤ) : ℚ :=
  if fading then F32 (i2f 1 - F32 (i2f (now - fadeTime) / F32 500000000)) else 1

/-- `shouldExit` after lines 383-388. -/
def shouldExitOf (s : LoopState) (now : ℤ) : Bool :=
  if s.fading then
    if alphaOf s.fading now s.fadeTime < 0 then true else s.shouldExit
  else s.shouldExit

/-- Lines 390-397: colours, `glClear`; then the tile loop of lines 399-436. -/
def drawEvents (bInverted : Bool) (angle alpha : ℚ) : List Event :=
  let flStandardCol : ℚ := 1
  let flInvertCol : ℚ := F64 (5 / 100)
  let reverseAlpha : ℚ := F64 (F64 (1 - alpha) * 3)
  let flMainCol : ℚ := F32 (F64 ((if !bInverted then flStandardCol else flInvertCol) - reverseAlpha))
  let flBgCol : ℚ := F32 (F64 ((if bInverted then flStandardCol else flInvertCol) - reverseAlpha))
  [.glColor4f flMainCol flMainCol flMainCol (F32 alpha),
   .glClearColor flBgCol flBgCol flBgCol (F32 alpha),
   .glClear,
   .drawTiles angle bInverted]

/-- Lines 443-445: `sleepTime = 8333 - ns2us(systemTime() - now)`, `usleep` when positive. -/
def pace (now tSleep : ℤ) : List Event :=
  let sleepTime : ℤ := 8333 - ns2us (tSleep - now)
  if sleepTime > 0 then [.usleep sleepTime] else []

/-- `checkExit()` (lines 461-469) followed by `exitPending()`: `requestExit()` sets the
thread's exit flag when the property reads as a non-zero number. -/
def checkExit (exitnow : ℤ) (mExitPending : Bool) : Bool :=
  if exitnow ≠ 0 then true else mExitPending

/-- Outcome of one iteration of the `do ... while` loop. -/
structure FrameResult where
  /-- Rotation angle passed to `glRotatef`. -/
  angle : ℚ
  /-- Value of `alpha` of this iteration. -/
  alpha : ℚ
  events : List Event
  state : LoopState
  /-- Whether another iteration follows. -/
  again : Bool
  deriving DecidableEq, Repr

/-- One iteration of the loop body, lines 359-454. -/
def frame (s : LoopState) (i : FrameInput) : FrameResult :=
  let now := i.now
  let startTime := startTimeOf s now
  let time := timeOf s now
  let bInverted := if toggles s now then !s.bInverted else s.bInverted
  let angle := angleOf time
  let nextInvert := nextInvertOf s.nextInvert time
  let alpha := alphaOf s.fading now s.fadeTime
  let shouldExit := shouldExitOf s now
  let draw := drawEvents bInverted angle alpha
  if i.swapOk then
    let mExitPending := checkExit i.exitnow s.mExitPending
    let enter : Bool := mExitPending && !s.fading
    { angle := angle
      alpha := alpha
      events := draw ++ [.eglSwapBuffers true] ++ pace now i.tSleep ++ [.checkExit]
      state :=
        { startTime := startTime
          fadeTime := if enter then i.tFade else s.fadeTime
          nextInvert := nextInvert
          bInverted := bInverted
          fading := if enter then true else s.fading
          shouldExit := shouldExit
          mExitPending := mExitPending }
      again := !shouldExit }
  else
    { angle := angle
      alpha := alpha
      events := draw ++ [.eglSwapBuffers false]
      state :=
        { startTime := startTime
          fadeTime := s.fadeTime
          nextInvert := nextInvert
          bInverted := bInverted
          fading := s.fading
          shouldExit := shouldExit
          mExitPending := s.mExitPending }
      again := false }

/-- The `do ... while ( !shouldExit )` loop, one `FrameInput` per iteration; `none` when the
inputs end before the loop does. -/
def loop (s : LoopState) : List FrameInput → Option (List Event × LoopState)
  | [] => none
  | i :: rest =>
    if (frame s i).again then
      match loop (frame s i).state rest with
      | some (ev, s') => some ((frame s i).events ++ ev, s')
      | none => none
    else some ((frame s i).events, (frame s i).state)

/-- The loop entered in state `s`, then `glDeleteTextures` and `return false`. -/
def androidFrom (s : LoopState) (inputs : List FrameInput) : Option (List Event × Bool) :=
  match loop s inputs with
  | some (ev, _) => some (ev ++ [.glDeleteTextures], false)
  | none => none

/-- State at the first iteration (lines 334, 351-356): `startTime` is the clock reading of
line 351, `fadeTime` is uninitialised and holds an arbitrary value. -/
def initState (startTime fadeTime : ℤ) (mExitPending : Bool) : LoopState :=
  { startTime := startTime
    fadeTime := fadeTime
    nextInvert := -1
    bInverted := false
    fading := false
    shouldExit := false
    mExitPending := mExitPending }

/-- `android()` from line 351 on. -/
def android (startTime fadeTime : ℤ) (mExitPending : Bool) (inputs : List FrameInput) :
    Option (List Event × Bool) :=
  androidFrom (initState startTime fadeTime mExitPending) inputs

/-- Readings of a monotonic clock in a frame `i` and in the frame `i₂` that follows it:
line 443 is read after line 362, `usleep`, when it is called, returns no earlier than after
the `sleepTime` microseconds it was asked for, and line 362 of the next frame is read after
that. -/
def ClockOrdered (i i₂ : FrameInput) : Prop :=
  i.now ≤ i.tSleep ∧ i.tSleep + us2ns (max 0 (8333 - ns2us (i.tSleep - i.now))) ≤ i₂.now

instance (i i₂ : FrameInput) : Decidable (ClockOrdered i i₂) := by
  unfold ClockOrdered; infer_instance

/-- The loop run over the frames `pre` when each of them goes on to a next iteration: the
events so far and the state at the head of the iteration that follows; `none` when the loop
ends within `pre`. -/
def runOn (s : LoopState) : List FrameInput → Option (List Event × LoopState)
  | [] => some ([], s)
  | i :: pre =>
    if (frame s i).again then
      match runOn (frame s i).state pre with
      | some (ev, s') => some ((frame s i).events ++ ev, s')
      | none => none
    else none

/-! ## Sample runs -/

/-- A frame of short cost in which the exit property reads `1` and the poll takes its clock
reading at 8.4 ms. -/
def pollFrame : FrameInput :=
  { now := 0, swapOk := true, tSleep := 100000, exitnow := 1, tFade := 8400000 }

/-- The frame after `pollFrame`, whose `now` is read one microsecond after the poll. -/
def afterPollFrame : FrameInput :=
  { now := 8401000, swapOk := true, tSleep := 8501000, exitnow := 1, tFade := 0 }

/-- A fading frame 16777216 ns after time 0. -/
def fadeFrameA : FrameInput :=
  { now := 16777216, swapOk := true, tSleep := 16877216, exitnow := 1, tFade := 0 }

/-- A frame 454.5 ms after time 0: the angle saturates at 90. -/
def saturateFrame : FrameInput :=
  { now := 454500000, swapOk := true, tSleep := 454600000, exitnow := 0, tFade := 0 }

/-- A frame 509.5 ms after time 0: the deadline set by `saturateFrame` is reached. -/
def toggleFrame : FrameInput :=
  { now := 509500000, swapOk := true, tSleep := 509600000, exitnow := 0, tFade := 0 }

/-- A frame whose `eglSwapBuffers` fails. -/
def lostSurfaceFrame : FrameInput :=
  { now := 20000000, swapOk := false, tSleep := 0, exitnow := 0, tFade := 0 }

/-- State in which fading began at time 0. -/
def fadingState : LoopState :=
  { startTime := 0, fadeTime := 0, nextInvert := -1, bInverted := false,
    fading := true, shouldExit := false, mExitPending := true }

/-- State holding at 90 degrees since time 0 with the invert deadline set at 509.5 ms. -/
def holdingState : LoopState :=
  { startTime := 0, fadeTime := 0, nextInvert := 509500000, bInverted := false,
    fading := false, shouldExit := false, mExitPending := false }

/-- A fading frame 600 ms after time 0. -/
def fadeFrameEnd : FrameInput :=
  { now := 600000000, swapOk := true, tSleep := 600100000, exitnow := 1, tFade := 0 }

/-! ## Properties of the rounding operations -/

theorem roundHalfEven_intCast (n : ℤ) : roundHalfEven (n : ℚ) = n := by
  simp [roundHalfEven]

theorem roundHalfEven_ge_floor (q : ℚ) : ⌊q⌋ ≤ roundHalfEven q := by
  unfold roundHalfEven
  simp only
  split_ifs <;> omega

theorem roundHalfEven_le_floor_succ (q : ℚ) : roundHalfEven q ≤ ⌊q⌋ + 1 := by
  unfold roundHalfEven
  simp only
  split_ifs <;> omega

theorem roundHalfEven_mono {a b : ℚ} (hab : a ≤ b) : roundHalfEven a ≤ roundHalfEven b := by
  have hfl : ⌊a⌋ ≤ ⌊b⌋ := Int.floor_le_floor hab
  rcases hfl.lt_or_eq with hlt | heq
  · calc roundHalfEven a ≤ ⌊a⌋ + 1 := roundHalfEven_le_floor_succ a
      _ ≤ ⌊b⌋ := hlt
      _ ≤ roundHalfEven b := roundHalfEven_ge_floor b
  · unfold roundHalfEven
    simp only
    rw [heq]
    have hr : a - (⌊b⌋ : ℚ) ≤ b - (⌊b⌋ : ℚ) := by linarith
    split_ifs <;> first | omega | (exfalso; linarith)

theorem roundHalfEven_sub_le (q : ℚ) : |(roundHalfEven q : ℚ) - q| ≤ 1 / 2 := by
  have h1 := Int.floor_le q
  have h2 := Int.lt_floor_add_one q
  unfold roundHalfEven
  simp only
  rw [abs_le]
  split_ifs <;> push_cast <;> constructor <;> linarith
theorem ilog2_spec : ∀ (fuel n : ℕ), 1 ≤ n → n ≤ fuel →
    2 ^ ilog2 fuel n ≤ n ∧ n < 2 ^ (ilog2 fuel n + 1)
  | 0, n, h1, h2 => by omega
  | fuel + 1, n, h1, h2 => by
    unfold ilog2
    split_ifs with hn
    · constructor <;> simp <;> omega
    · have ih := ilog2_spec fuel (n / 2) (by omega) (by omega)
      obtain ⟨ih1, ih2⟩ := ih
      have e1 : 2 ^ (ilog2 fuel (n / 2) + 1) = 2 * 2 ^ ilog2 fuel (n / 2) := by ring
      have e2 : 2 ^ (ilog2 fuel (n / 2) + 1 + 1) = 2 * 2 ^ (ilog2 fuel (n / 2) + 1) := by ring
      constructor
      · rw [e1]; omega
      · rw [e2]; omega

theorem expOf_spec {q : ℚ} (hq : 0 < q) :
    (2:ℚ) ^ expOf q ≤ q ∧ q < (2:ℚ) ^ (expOf q + 1) := by
  have hnum : 0 < q.num := Rat.num_pos.mpr hq
  have hden : 0 < q.den := q.den_pos
  obtain ⟨a1, a2⟩ := ilog2_spec q.num.natAbs q.num.natAbs (by omega) le_rfl
  obtain ⟨b1, b2⟩ := ilog2_spec q.den q.den (by omega) le_rfl
  set la := ilog2 q.num.natAbs q.num.natAbs with hla
  set lb := ilog2 q.den q.den with hlb
  have hdq : (0:ℚ) < (q.den : ℚ) := by exact_mod_cast hden
  have hqeq : q * (q.den : ℚ) = (q.num.natAbs : ℚ) := by
    have h3 : ((q.num.natAbs : ℤ) : ℚ) = (q.num : ℚ) := by
      rw [Int.natAbs_of_nonneg hnum.le]
    have h4 : ((q.num.natAbs : ℤ) : ℚ) = (q.num.natAbs : ℚ) := Int.cast_natCast _
    rw [← h4, h3]
    exact Rat.mul_den_eq_num q
  have A1 : ((2:ℚ) ^ la) ≤ (q.num.natAbs : ℚ) := by exact_mod_cast a1
  have A2 : (q.num.natAbs : ℚ) < (2:ℚ) ^ (la + 1) := by exact_mod_cast a2
  have B1 : ((2:ℚ) ^ lb) ≤ (q.den : ℚ) := by exact_mod_cast b1
  have B2 : (q.den : ℚ) < (2:ℚ) ^ (lb + 1) := by exact_mod_cast b2
  have two_ne : (2:ℚ) ≠ 0 := by norm_num
  have hpl : (0:ℚ) < (2:ℚ) ^ lb := by positivity
  have hpl1 : (0:ℚ) < (2:ℚ) ^ (lb + 1) := by positivity
  unfold expOf
  simp only
  rw [← hla, ← hlb]
  split_ifs with hc
  · refine ⟨hc, ?_⟩
    have e : (2:ℚ) ^ ((la:ℤ) - (lb:ℤ) + 1) = (2:ℚ) ^ (la + 1) / (2:ℚ) ^ lb := by
      rw [show (la:ℤ) - (lb:ℤ) + 1 = ((la + 1 : ℕ) : ℤ) - ((lb : ℕ) : ℤ) by push_cast; ring]
      rw [zpow_sub₀ two_ne, zpow_natCast, zpow_natCast]
    rw [e, lt_div_iff₀ hpl]
    calc q * 2 ^ lb ≤ q * (q.den : ℚ) := by
          apply mul_le_mul_of_nonneg_left B1 hq.le
      _ = (q.num.natAbs : ℚ) := hqeq
      _ < 2 ^ (la + 1) := A2
  · push_neg at hc
    constructor
    · have e : (2:ℚ) ^ ((la:ℤ) - (lb:ℤ) - 1) = (2:ℚ) ^ la / (2:ℚ) ^ (lb + 1) := by
        rw [show (la:ℤ) - (lb:ℤ) - 1 = ((la : ℕ) : ℤ) - ((lb + 1 : ℕ) : ℤ) by push_cast; ring]
        rw [zpow_sub₀ two_ne, zpow_natCast, zpow_natCast]
      rw [e, div_le_iff₀ hpl1]
      calc (2:ℚ) ^ la ≤ (q.num.natAbs : ℚ) := A1
        _ = q * (q.den : ℚ) := hqeq.symm
        _ ≤ q * 2 ^ (lb + 1) := by
          apply mul_le_mul_of_nonneg_left B2.le hq.le
    · have : (la:ℤ) - (lb:ℤ) - 1 + 1 = (la:ℤ) - (lb:ℤ) := by ring
      rw [this]; exact hc

theorem expOf_mono {x y : ℚ} (hx : 0 < x) (hxy : x ≤ y) : expOf x ≤ expOf y := by
  by_contra hlt
  push_neg at hlt
  obtain ⟨x1, _⟩ := expOf_spec hx
  obtain ⟨_, y2⟩ := expOf_spec (lt_of_lt_of_le hx hxy)
  have h : (2:ℚ) ^ (expOf y + 1) ≤ (2:ℚ) ^ expOf x :=
    zpow_le_zpow_right₀ (by norm_num) (by omega)
  linarith

theorem roundMag_zero (p : ℕ) : roundMag p 0 = 0 := by simp [roundMag]

theorem roundMag_bounds {p : ℕ} (hp : 1 ≤ p) {q : ℚ} (hq : 0 < q) :
    (2:ℚ) ^ expOf q ≤ roundMag p q ∧ roundMag p q ≤ (2:ℚ) ^ (expOf q + 1) := by
  obtain ⟨h1, h2⟩ := expOf_spec hq
  have two_ne : (2:ℚ) ≠ 0 := by norm_num
  set e := expOf q with he
  have hu : (0:ℚ) < (2:ℚ) ^ (e - ((p:ℤ) - 1)) := by positivity
  have elo : (2:ℚ) ^ e = (((2:ℤ) ^ (p - 1) : ℤ) : ℚ) * (2:ℚ) ^ (e - ((p:ℤ) - 1)) := by
    push_cast
    rw [← zpow_natCast, ← zpow_add₀ two_ne]
    congr 1
    have : ((p - 1 : ℕ) : ℤ) = (p:ℤ) - 1 := by omega
    rw [this]; ring
  have ehi : (2:ℚ) ^ (e + 1) = (((2:ℤ) ^ p : ℤ) : ℚ) * (2:ℚ) ^ (e - ((p:ℤ) - 1)) := by
    push_cast
    rw [← zpow_natCast, ← zpow_add₀ two_ne]
    congr 1
    ring
  have r1 : (2:ℤ) ^ (p - 1) ≤ roundHalfEven (q / (2:ℚ) ^ (e - ((p:ℤ) - 1))) := by
    have := roundHalfEven_mono (a := (((2:ℤ) ^ (p - 1) : ℤ) : ℚ))
      (b := q / (2:ℚ) ^ (e - ((p:ℤ) - 1))) (by rw [le_div_iff₀ hu, ← elo]; exact h1)
    rwa [roundHalfEven_intCast] at this
  have r2 : roundHalfEven (q / (2:ℚ) ^ (e - ((p:ℤ) - 1))) ≤ (2:ℤ) ^ p := by
    have := roundHalfEven_mono (b := (((2:ℤ) ^ p : ℤ) : ℚ))
      (a := q / (2:ℚ) ^ (e - ((p:ℤ) - 1))) (by rw [div_le_iff₀ hu, ← ehi]; exact h2.le)
    rwa [roundHalfEven_intCast] at this
  have hm : roundMag p q = (roundHalfEven (q / (2:ℚ) ^ (e - ((p:ℤ) - 1))) : ℚ)
      * (2:ℚ) ^ (e - ((p:ℤ) - 1)) := by
    simp [roundMag, hq.ne', he]
  rw [hm, elo, ehi]
  constructor
  · apply mul_le_mul_of_nonneg_right _ hu.le
    exact_mod_cast r1
  · apply mul_le_mul_of_nonneg_right _ hu.le
    exact_mod_cast r2

theorem roundMag_nonneg {p : ℕ} (hp : 1 ≤ p) {q : ℚ} (hq : 0 ≤ q) : 0 ≤ roundMag p q := by
  rcases hq.lt_or_eq with h | h
  · have := (roundMag_bounds hp h).1
    have h2 : (0:ℚ) < (2:ℚ) ^ expOf q := by positivity
    linarith
  · rw [← h, roundMag_zero]

theorem roundMag_mono {p : ℕ} (hp : 1 ≤ p) {x y : ℚ} (hx : 0 ≤ x) (hxy : x ≤ y) :
    roundMag p x ≤ roundMag p y := by
  rcases hx.lt_or_eq with hx0 | hx0
  · have hy0 : 0 < y := lt_of_lt_of_le hx0 hxy
    have hexp := expOf_mono hx0 hxy
    rcases hexp.lt_or_eq with hlt | heq
    · calc roundMag p x ≤ (2:ℚ) ^ (expOf x + 1) := (roundMag_bounds hp hx0).2
        _ ≤ (2:ℚ) ^ expOf y := zpow_le_zpow_right₀ (by norm_num) (by omega)
        _ ≤ roundMag p y := (roundMag_bounds hp hy0).1
    · have hu : (0:ℚ) < (2:ℚ) ^ (expOf y - ((p:ℤ) - 1)) := by positivity
      have hxm : roundMag p x = (roundHalfEven (x / (2:ℚ) ^ (expOf y - ((p:ℤ) - 1))) : ℚ)
          * (2:ℚ) ^ (expOf y - ((p:ℤ) - 1)) := by
        simp [roundMag, hx0.ne', heq]
      have hym : roundMag p y = (roundHalfEven (y / (2:ℚ) ^ (expOf y - ((p:ℤ) - 1))) : ℚ)
          * (2:ℚ) ^ (expOf y - ((p:ℤ) - 1)) := by
        simp [roundMag, hy0.ne']
      rw [hxm, hym]
      apply mul_le_mul_of_nonneg_right _ hu.le
      have : roundHalfEven (x / (2:ℚ) ^ (expOf y - ((p:ℤ) - 1)))
          ≤ roundHalfEven (y / (2:ℚ) ^ (expOf y - ((p:ℤ) - 1))) :=
        roundHalfEven_mono (div_le_div_of_nonneg_right hxy hu.le)
      exact_mod_cast this
  · rw [← hx0, roundMag_zero]
    exact roundMag_nonneg hp (hx0 ▸ hxy)

theorem roundNE_zero (p : ℕ) : roundNE p 0 = 0 := by simp [roundNE, roundMag]

theorem roundNE_nonneg {p : ℕ} (hp : 1 ≤ p) {q : ℚ} (hq : 0 ≤ q) : 0 ≤ roundNE p q := by
  unfold roundNE
  rw [if_neg (not_lt.mpr hq)]
  exact roundMag_nonneg hp hq

theorem roundNE_nonpos {p : ℕ} (hp : 1 ≤ p) {q : ℚ} (hq : q ≤ 0) : roundNE p q ≤ 0 := by
  unfold roundNE
  split_ifs with h
  · have := roundMag_nonneg hp (q := -q) (by linarith)
    linarith
  · have : q = 0 := le_antisymm hq (not_lt.mp h)
    rw [this, roundMag_zero]

theorem roundNE_mono {p : ℕ} (hp : 1 ≤ p) {x y : ℚ} (hxy : x ≤ y) :
    roundNE p x ≤ roundNE p y := by
  by_cases hx : x < 0
  · by_cases hy : y < 0
    · unfold roundNE
      rw [if_pos hx, if_pos hy]
      have := roundMag_mono hp (x := -y) (y := -x) (by linarith) (by linarith)
      linarith
    · have h1 := roundNE_nonpos hp hx.le
      have h2 := roundNE_nonneg hp (not_lt.mp hy)
      linarith
  · have hx0 : 0 ≤ x := not_lt.mp hx
    unfold roundNE
    rw [if_neg hx, if_neg (not_lt.mpr (le_trans hx0 hxy))]
    exact roundMag_mono hp hx0 hxy

/-! ## Rounding error -/

theorem roundMag_err {p : ℕ} {q : ℚ} (hq : 0 < q) :
    |roundMag p q - q| ≤ q / 2 ^ p := by
  obtain ⟨h1, _⟩ := expOf_spec hq
  have two_ne : (2:ℚ) ≠ 0 := by norm_num
  set e := expOf q with he
  set u : ℚ := (2:ℚ) ^ (e - ((p:ℤ) - 1)) with hu_def
  have hu : (0:ℚ) < u := by positivity
  have hm : roundMag p q = (roundHalfEven (q / u) : ℚ) * u := by
    simp [roundMag, hq.ne', he, hu_def]
  have herr := roundHalfEven_sub_le (q / u)
  have e1 : (roundHalfEven (q / u) : ℚ) * u - q = ((roundHalfEven (q / u) : ℚ) - q / u) * u := by
    field_simp
  have hu2 : u = 2 * ((2:ℚ) ^ e / 2 ^ p) := by
    rw [hu_def, show e - ((p:ℤ) - 1) = e - (p:ℤ) + 1 by ring, zpow_add₀ two_ne,
      zpow_sub₀ two_ne, zpow_natCast]
    ring
  have hp2 : (0:ℚ) < 2 ^ p := by positivity
  have h3 : (2:ℚ) ^ e / 2 ^ p ≤ q / 2 ^ p := div_le_div_of_nonneg_right h1 hp2.le
  rw [hm, e1, abs_mul, abs_of_pos hu]
  calc |(roundHalfEven (q / u) : ℚ) - q / u| * u ≤ 1 / 2 * u :=
        mul_le_mul_of_nonneg_right herr hu.le
    _ = (2:ℚ) ^ e / 2 ^ p := by rw [hu2]; ring
    _ ≤ q / 2 ^ p := h3

theorem roundNE_err (p : ℕ) (q : ℚ) : |roundNE p q - q| ≤ |q| / 2 ^ p := by
  unfold roundNE
  split_ifs with h
  · have := roundMag_err (p := p) (q := -q) (by linarith)
    rw [abs_of_neg h]
    have e : -roundMag p (-q) - q = -(roundMag p (-q) - -q) := by ring
    rw [e, abs_neg]
    exact this
  · rcases (not_lt.mp h).lt_or_eq with h0 | h0
    · rw [abs_of_pos h0]; exact roundMag_err h0
    · rw [← h0, roundMag_zero]; simp

theorem F32_err (q : ℚ) : |F32 q - q| ≤ |q| / 16777216 := by
  have := roundNE_err 24 q
  norm_num at this
  exact this

theorem F64_err (q : ℚ) : |F64 q - q| ≤ |q| / 9007199254740992 := by
  have := roundNE_err 53 q
  norm_num at this
  exact this

theorem F32_bounds {q : ℚ} (hq : 0 ≤ q) :
    q - q / 16777216 ≤ F32 q ∧ F32 q ≤ q + q / 16777216 := by
  have := F32_err q
  rw [abs_of_nonneg hq, abs_le] at this
  constructor <;> linarith [this.1, this.2]

theorem F64_bounds {q : ℚ} (hq : 0 ≤ q) :
    q - q / 9007199254740992 ≤ F64 q ∧ F64 q ≤ q + q / 9007199254740992 := by
  have := F64_err q
  rw [abs_of_nonneg hq, abs_le] at this
  constructor <;> linarith [this.1, this.2]

/-! ## Rounding to `float` and `double` -/

theorem F32_mono {x y : ℚ} (h : x ≤ y) : F32 x ≤ F32 y := roundNE_mono (by norm_num) h

theorem F64_mono {x y : ℚ} (h : x ≤ y) : F64 x ≤ F64 y := roundNE_mono (by norm_num) h

theorem F32_nonneg {x : ℚ} (h : 0 ≤ x) : 0 ≤ F32 x := roundNE_nonneg (by norm_num) h

theorem F64_nonneg {x : ℚ} (h : 0 ≤ x) : 0 ≤ F64 x := roundNE_nonneg (by norm_num) h

theorem F32_zero : F32 0 = 0 := roundNE_zero 24

theorem F64_zero : F64 0 = 0 := roundNE_zero 53

theorem i2f_mono {m n : ℤ} (h : m ≤ n) : i2f m ≤ i2f n := F32_mono (by exact_mod_cast h)

theorem i2d_mono {m n : ℤ} (h : m ≤ n) : i2d m ≤ i2d n := F64_mono (by exact_mod_cast h)

theorem i2d_nonneg {n : ℤ} (h : 0 ≤ n) : 0 ≤ i2d n := F64_nonneg (by exact_mod_cast h)

theorem i2d_zero : i2d 0 = 0 := by simp [i2d, F64_zero]

theorem i2f_zero : i2f 0 = 0 := by simp [i2f, F32_zero]

theorem i2f_one : i2f 1 = 1 := by decide!

theorem i2f_ninety : i2f 90 = 90 := by decide!

theorem F32_one : F32 1 = 1 := by decide!

theorem F32_fadeDuration : F32 500000000 = 500000000 := by decide!

theorem framePeriod_eq : framePeriod = 5050000 := by decide!

theorem i2d_framePeriod : i2d framePeriod = 5050000 := by decide!

/-! ## Exactness: scaling by four and re-rounding -/

theorem expOf_unique {q : ℚ} {e : ℤ} (hq : 0 < q) (h1 : (2:ℚ) ^ e ≤ q)
    (h2 : q < (2:ℚ) ^ (e + 1)) : expOf q = e := by
  obtain ⟨s1, s2⟩ := expOf_spec hq
  rcases lt_trichotomy (expOf q) e with h | h | h
  · exfalso
    have : (2:ℚ) ^ (expOf q + 1) ≤ (2:ℚ) ^ e := zpow_le_zpow_right₀ (by norm_num) (by omega)
    linarith
  · exact h
  · exfalso
    have : (2:ℚ) ^ (e + 1) ≤ (2:ℚ) ^ expOf q := zpow_le_zpow_right₀ (by norm_num) (by omega)
    linarith

theorem roundMag_eq {p : ℕ} {q : ℚ} (hq : 0 < q) :
    roundMag p q = (roundHalfEven (q / (2:ℚ) ^ (expOf q - ((p:ℤ) - 1))) : ℚ)
      * (2:ℚ) ^ (expOf q - ((p:ℤ) - 1)) := by
  simp [roundMag, hq.ne']

theorem roundMag_mul_four (p : ℕ) {q : ℚ} (hq : 0 ≤ q) :
    roundMag p (q * 4) = roundMag p q * 4 := by
  rcases hq.lt_or_eq with h | h
  · obtain ⟨s1, s2⟩ := expOf_spec h
    have two_ne : (2:ℚ) ≠ 0 := by norm_num
    have h4 : 0 < q * 4 := by linarith
    have e4 : expOf (q * 4) = expOf q + 2 := by
      apply expOf_unique h4
      · rw [zpow_add₀ two_ne]; norm_num; linarith
      · rw [show expOf q + 2 + 1 = (expOf q + 1) + 2 by ring, zpow_add₀ two_ne]
        norm_num; linarith
    have hu : (0:ℚ) < (2:ℚ) ^ (expOf q - ((p:ℤ) - 1)) := by positivity
    have eu : (2:ℚ) ^ (expOf q + 2 - ((p:ℤ) - 1)) = (2:ℚ) ^ (expOf q - ((p:ℤ) - 1)) * 4 := by
      rw [show expOf q + 2 - ((p:ℤ) - 1) = (expOf q - ((p:ℤ) - 1)) + 2 by ring, zpow_add₀ two_ne]
      norm_num
    rw [roundMag_eq h4, roundMag_eq h, e4, eu]
    have ed : q * 4 / ((2:ℚ) ^ (expOf q - ((p:ℤ) - 1)) * 4)
        = q / (2:ℚ) ^ (expOf q - ((p:ℤ) - 1)) := by
      field_simp
      ring
    rw [ed]; ring
  · rw [← h]; simp [roundMag_zero]

theorem roundMag_idem {p : ℕ} (hp : 1 ≤ p) {q : ℚ} (hq : 0 ≤ q) :
    roundMag p (roundMag p q) = roundMag p q := by
  rcases hq.lt_or_eq with h | h
  · obtain ⟨b1, b2⟩ := roundMag_bounds hp h
    have two_ne : (2:ℚ) ≠ 0 := by norm_num
    have hpos : 0 < roundMag p q := lt_of_lt_of_le (by positivity) b1
    set e := expOf q with he
    set u : ℚ := (2:ℚ) ^ (e - ((p:ℤ) - 1)) with hu_def
    have hu : (0:ℚ) < u := by positivity
    set m : ℤ := roundHalfEven (q / u) with hm
    have hv : roundMag p q = (m : ℚ) * u := by rw [roundMag_eq h]
    rcases b2.lt_or_eq with hlt | heq
    · have ee : expOf (roundMag p q) = e := expOf_unique hpos b1 hlt
      rw [roundMag_eq hpos, ee, ← hu_def, hv]
      have : (m : ℚ) * u / u = (m : ℚ) := by field_simp
      rw [this, roundHalfEven_intCast]
    · have ee : expOf (roundMag p q) = e + 1 := by
        apply expOf_unique hpos
        · rw [heq]
        · rw [heq]; exact zpow_lt_zpow_right₀ (by norm_num) (by omega)
      have eu : (2:ℚ) ^ (e + 1 - ((p:ℤ) - 1)) = (2:ℚ) ^ (e + 1) / (((2:ℤ) ^ (p - 1) : ℤ) : ℚ) := by
        push_cast
        rw [← zpow_natCast, ← zpow_sub₀ two_ne]
        congr 1
        have : ((p - 1 : ℕ) : ℤ) = (p:ℤ) - 1 := by omega
        rw [this]
      have hpp : (0:ℚ) < (((2:ℤ) ^ (p - 1) : ℤ) : ℚ) := by push_cast; positivity
      have hE : (0:ℚ) < (2:ℚ) ^ (e + 1) := by positivity
      rw [roundMag_eq hpos, ee, eu, heq]
      have : (2:ℚ) ^ (e + 1) / ((2:ℚ) ^ (e + 1) / (((2:ℤ) ^ (p - 1) : ℤ) : ℚ))
          = (((2:ℤ) ^ (p - 1) : ℤ) : ℚ) := by
        field_simp
      rw [this, roundHalfEven_intCast]
      field_simp
  · rw [← h, roundMag_zero, roundMag_zero]

theorem F32_of_nonneg {q : ℚ} (hq : 0 ≤ q) : F32 q = roundMag 24 q := by
  unfold F32 roundNE
  rw [if_neg (not_lt.mpr hq)]

/-- The loop bound `mWidth * 4.f` is the `float` nearest to `4 * mWidth`. -/
theorem F32_i2f_mul_four {n : ℤ} (hn : 0 ≤ n) : F32 (i2f n * i2f 4) = i2f (4 * n) := by
  have h4 : i2f 4 = 4 := by decide!
  have hq : (0:ℚ) ≤ (n : ℚ) := by exact_mod_cast hn
  have hr : (0:ℚ) ≤ roundMag 24 (n : ℚ) := roundMag_nonneg (by norm_num) hq
  unfold i2f at *
  rw [h4, F32_of_nonneg hq, F32_of_nonneg (by linarith), roundMag_mul_four 24 hr,
    roundMag_idem (by norm_num) hq]
  have : (((4 * n : ℤ)) : ℚ) = (n : ℚ) * 4 := by push_cast; ring
  rw [this, F32_of_nonneg (by linarith), roundMag_mul_four 24 hq]

/-- Once the loop variable has reached four times the display size, the loop test fails. -/
theorem loop_test_fails {n y : ℤ} (hy : 0 ≤ y) (h : 4 * n ≤ y) :
    ¬ (i2f y < F32 (i2f n * i2f 4)) := by
  rw [not_lt]
  by_cases hn : 0 ≤ n
  · rw [F32_i2f_mul_four hn]; exact i2f_mono h
  · have h4 : i2f 4 = 4 := by decide!
    have h1 : i2f n ≤ 0 := by
      have := i2f_mono (m := n) (n := 0) (by omega)
      rwa [i2f_zero] at this
    have h2 : F32 (i2f n * i2f 4) ≤ 0 := by
      have := F32_mono (x := i2f n * i2f 4) (y := 0) (by rw [h4]; linarith)
      rwa [F32_zero] at this
    have h3 : 0 ≤ i2f y := by
      have := i2f_mono (m := 0) (n := y) hy
      rwa [i2f_zero] at this
    linarith

/-! ## The per-frame update -/

theorem frame_angle (s : LoopState) (i : FrameInput) :
    (frame s i).angle = angleOf (timeOf s i.now) := by
  cases h : i.swapOk <;> simp [frame, h]

theorem frame_alpha (s : LoopState) (i : FrameInput) :
    (frame s i).alpha = alphaOf s.fading i.now s.fadeTime := by
  cases h : i.swapOk <;> simp [frame, h]

theorem frame_startTime (s : LoopState) (i : FrameInput) :
    (frame s i).state.startTime = startTimeOf s i.now := by
  cases h : i.swapOk <;> simp [frame, h]

theorem frame_nextInvert (s : LoopState) (i : FrameInput) :
    (frame s i).state.nextInvert = nextInvertOf s.nextInvert (timeOf s i.now) := by
  cases h : i.swapOk <;> simp [frame, h]

theorem frame_bInverted (s : LoopState) (i : FrameInput) :
    (frame s i).state.bInverted = (if toggles s i.now then !s.bInverted else s.bInverted) := by
  cases h : i.swapOk <;> simp [frame, h]

theorem frame_shouldExit (s : LoopState) (i : FrameInput) :
    (frame s i).state.shouldExit = shouldExitOf s i.now := by
  cases h : i.swapOk <;> simp [frame, h]

theorem frame_fading (s : LoopState) (i : FrameInput) :
    (frame s i).state.fading =
      (if i.swapOk then
        (if (checkExit i.exitnow s.mExitPending && !s.fading) then true else s.fading)
       else s.fading) := by
  cases h : i.swapOk <;> simp [frame, h]

theorem frame_fadeTime (s : LoopState) (i : FrameInput) :
    (frame s i).state.fadeTime =
      (if i.swapOk then
        (if (checkExit i.exitnow s.mExitPending && !s.fading) then i.tFade else s.fadeTime)
       else s.fadeTime) := by
  cases h : i.swapOk <;> simp [frame, h]

theorem frame_again (s : LoopState) (i : FrameInput) :
    (frame s i).again = (if i.swapOk then !shouldExitOf s i.now else false) := by
  cases h : i.swapOk <;> simp [frame, h]

theorem frame_events (s : LoopState) (i : FrameInput) :
    (frame s i).events =
      drawEvents (if toggles s i.now then !s.bInverted else s.bInverted)
          (angleOf (timeOf s i.now)) (alphaOf s.fading i.now s.fadeTime) ++
        (if i.swapOk then
          [Event.eglSwapBuffers true] ++ pace i.now i.tSleep ++ [Event.checkExit]
         else [Event.eglSwapBuffers false]) := by
  cases h : i.swapOk <;> simp [frame, h]

/-- A loop that goes on to another iteration enters it with `shouldExit = false`. -/
theorem frame_again_shouldExit (s : LoopState) (i : FrameInput)
    (h : (frame s i).again = true) : (frame s i).state.shouldExit = false := by
  rw [frame_again] at h
  rw [frame_shouldExit]
  split_ifs at h with hs
  simpa using h

theorem loop_cons_stop (s : LoopState) (i : FrameInput) (rest : List FrameInput)
    (h : (frame s i).again = false) :
    loop s (i :: rest) = some ((frame s i).events, (frame s i).state) := by
  simp [loop, h]

theorem loop_cons_again (s : LoopState) (i : FrameInput) (rest : List FrameInput)
    (h : (frame s i).again = true) :
    loop s (i :: rest) =
      (loop (frame s i).state rest).map (fun r => ((frame s i).events ++ r.1, r.2)) := by
  simp only [loop, h, if_true]
  cases loop (frame s i).state rest <;> rfl

/-! ## Inversion and rotation angle -/

theorem rawAngle_zero : rawAngle 0 = 0 := by
  simp [rawAngle, F64_zero, F32_zero]

theorem rawAngle_mono {t₁ t₂ : ℚ} (h : t₁ ≤ t₂) : rawAngle t₁ ≤ rawAngle t₂ := by
  unfold rawAngle
  apply F32_mono
  apply F64_mono
  rw [i2d_framePeriod]
  exact div_le_div_of_nonneg_right h (by norm_num)

theorem rawAngle_nonneg {t : ℚ} (h : 0 ≤ t) : 0 ≤ rawAngle t := by
  have := rawAngle_mono h
  rwa [rawAngle_zero] at this

theorem angleOf_eq_min (t : ℚ) : angleOf t = min 90 (rawAngle t) := by
  unfold angleOf
  rw [i2f_ninety]
  split_ifs with h
  · exact (min_eq_left h).symm
  · exact (min_eq_right (le_of_lt (not_le.mp h))).symm

theorem angleOf_zero : angleOf 0 = 0 := by
  rw [angleOf_eq_min, rawAngle_zero]; norm_num

theorem angleOf_mono {t₁ t₂ : ℚ} (h : t₁ ≤ t₂) : angleOf t₁ ≤ angleOf t₂ := by
  rw [angleOf_eq_min, angleOf_eq_min]
  exact min_le_min le_rfl (rawAngle_mono h)

theorem angleOf_le (t : ℚ) : angleOf t ≤ 90 := by
  rw [angleOf_eq_min]; exact min_le_left _ _

theorem angleOf_nonneg {t : ℚ} (h : 0 ≤ t) : 0 ≤ angleOf t := by
  rw [angleOf_eq_min]; exact le_min (by norm_num) (rawAngle_nonneg h)

theorem timeOf_eq (s : LoopState) (now : ℤ) :
    timeOf s now = i2d (now - startTimeOf s now) := by
  unfold timeOf startTimeOf
  split_ifs <;> rfl

theorem timeOf_of_toggles {s : LoopState} {now : ℤ} (h : toggles s now = true) :
    timeOf s now = 0 := by
  rw [timeOf_eq]
  unfold startTimeOf
  rw [if_pos h, sub_self, i2d_zero]

theorem toggles_iff (s : LoopState) (now : ℤ) :
    toggles s now = true ↔ s.nextInvert ≠ -1 ∧ s.nextInvert ≤ i2d (now - s.startTime) := by
  simp [toggles]

/-- Once set, the invert deadline keeps its value in every frame. -/
theorem frame_nextInvert_of_set (s : LoopState) (i : FrameInput) (h : s.nextInvert ≠ -1) :
    (frame s i).state.nextInvert = s.nextInvert := by
  rw [frame_nextInvert]
  unfold nextInvertOf
  split_ifs <;> rfl


/-! ## Fade, exit flag and the exit poll -/

theorem alphaOf_fading (now fadeTime : ℤ) :
    alphaOf true now fadeTime = F32 (1 - F32 (i2f (now - fadeTime) / 500000000)) := by
  simp [alphaOf, i2f_one, F32_fadeDuration]

theorem alphaOf_antitone {now₁ now₂ : ℤ} (fadeTime : ℤ) (h : now₁ ≤ now₂) :
    alphaOf true now₂ fadeTime ≤ alphaOf true now₁ fadeTime := by
  rw [alphaOf_fading, alphaOf_fading]
  apply F32_mono
  have h1 : i2f (now₁ - fadeTime) ≤ i2f (now₂ - fadeTime) := i2f_mono (by omega)
  have h2 : F32 (i2f (now₁ - fadeTime) / 500000000) ≤ F32 (i2f (now₂ - fadeTime) / 500000000) :=
    F32_mono (div_le_div_of_nonneg_right h1 (by norm_num))
  linarith

theorem alphaOf_le_one {now fadeTime : ℤ} (h : fadeTime ≤ now) :
    alphaOf true now fadeTime ≤ 1 := by
  rw [alphaOf_fading]
  have h1 : (0:ℚ) ≤ i2f (now - fadeTime) := by
    have := i2f_mono (m := 0) (n := now - fadeTime) (by omega)
    rwa [i2f_zero] at this
  have h2 : (0:ℚ) ≤ F32 (i2f (now - fadeTime) / 500000000) :=
    F32_nonneg (div_nonneg h1 (by norm_num))
  calc F32 (1 - F32 (i2f (now - fadeTime) / 500000000)) ≤ F32 1 := F32_mono (by linarith)
    _ = 1 := F32_one

theorem alphaOf_self (t : ℤ) : alphaOf true t t = 1 := by
  rw [alphaOf_fading, sub_self, i2f_zero]
  simp [F32_zero, F32_one]

theorem shouldExitOf_fading {s : LoopState} (now : ℤ) (hf : s.fading = true)
    (hs : s.shouldExit = false) :
    shouldExitOf s now = true ↔ alphaOf true now s.fadeTime < 0 := by
  unfold shouldExitOf
  rw [hf]
  simp only [if_true]
  split_ifs with h
  · simp [h]
  · simp [h, hs]

theorem shouldExitOf_not_fading {s : LoopState} (now : ℤ) (hf : s.fading = false) :
    shouldExitOf s now = s.shouldExit := by
  simp [shouldExitOf, hf]


/-! ## The angle against the exact quotient, and strict decrease of `alpha` -/

theorem rawAngle_saturated {e : ℤ} (h : 454500000 ≤ e) : 90 ≤ rawAngle (i2d e) := by
  have h1 : i2d 454500000 ≤ i2d e := i2d_mono h
  have e1 : i2d 454500000 = 454500000 := by decide!
  have e2 : F32 (F64 90) = 90 := by decide!
  rw [e1] at h1
  unfold rawAngle
  rw [i2d_framePeriod, ← e2]
  apply F32_mono
  apply F64_mono
  rw [le_div_iff₀ (by norm_num)]
  linarith

theorem rawAngle_close {e : ℤ} (h0 : 0 ≤ e) (h1 : e < 454500000) :
    |rawAngle (i2d e) - (e : ℚ) / 5050000| ≤ 1 / 100000 := by
  have he0 : (0:ℚ) ≤ (e : ℚ) := by exact_mod_cast h0
  have he1 : (e : ℚ) < 454500000 := by exact_mod_cast h1
  obtain ⟨t1, t2⟩ := F64_bounds he0
  have ht0 : 0 ≤ F64 (e : ℚ) := F64_nonneg he0
  have hq0 : 0 ≤ F64 (e : ℚ) / 5050000 := div_nonneg ht0 (by norm_num)
  obtain ⟨x1, x2⟩ := F64_bounds hq0
  have hx0 : 0 ≤ F64 (F64 (e : ℚ) / 5050000) := F64_nonneg hq0
  obtain ⟨a1, a2⟩ := F32_bounds hx0
  unfold rawAngle i2d
  rw [show F64 ((framePeriod : ℤ) : ℚ) = 5050000 from i2d_framePeriod]
  have hq : F64 (e : ℚ) / 5050000 * 5050000 = F64 (e : ℚ) := by field_simp
  have hr : (e : ℚ) / 5050000 * 5050000 = (e : ℚ) := by field_simp
  rw [abs_le]
  constructor <;> linarith

theorem angleOf_close {e : ℤ} (h0 : 0 ≤ e) :
    |angleOf (i2d e) - min 90 ((e : ℚ) / 5050000)| ≤ 1 / 100000 := by
  rw [angleOf_eq_min]
  by_cases h1 : e < 454500000
  · calc |min 90 (rawAngle (i2d e)) - min 90 ((e : ℚ) / 5050000)|
        ≤ max |(90:ℚ) - 90| |rawAngle (i2d e) - (e : ℚ) / 5050000| :=
          abs_min_sub_min_le_max _ _ _ _
      _ ≤ 1 / 100000 := by
          apply max_le
          · norm_num
          · exact rawAngle_close h0 h1
  · have h2 : (454500000 : ℤ) ≤ e := not_lt.mp h1
    have h3 := rawAngle_saturated h2
    have h4 : (90:ℚ) ≤ (e : ℚ) / 5050000 := by
      rw [le_div_iff₀ (by norm_num)]
      have : ((454500000 : ℤ) : ℚ) ≤ (e : ℚ) := by exact_mod_cast h2
      push_cast at this
      linarith
    rw [min_eq_left h3, min_eq_left h4]
    norm_num

theorem alphaOf_strict {now₁ now₂ fadeTime : ℤ} (h0 : fadeTime ≤ now₁)
    (hgap : now₁ + 1000 ≤ now₂) (hmax : now₂ - fadeTime ≤ 2147483648) :
    alphaOf true now₂ fadeTime < alphaOf true now₁ fadeTime := by
  rw [alphaOf_fading, alphaOf_fading]
  unfold i2f
  have hd1 : (0:ℚ) ≤ ((now₁ - fadeTime : ℤ) : ℚ) := by exact_mod_cast (by omega : 0 ≤ now₁ - fadeTime)
  have hd2 : (0:ℚ) ≤ ((now₂ - fadeTime : ℤ) : ℚ) := by exact_mod_cast (by omega : 0 ≤ now₂ - fadeTime)
  have hg : ((now₁ - fadeTime : ℤ) : ℚ) + 1000 ≤ ((now₂ - fadeTime : ℤ) : ℚ) := by
    exact_mod_cast (by omega : now₁ - fadeTime + 1000 ≤ now₂ - fadeTime)
  have hm : ((now₂ - fadeTime : ℤ) : ℚ) ≤ 2147483648 := by exact_mod_cast hmax
  set d₁ : ℚ := ((now₁ - fadeTime : ℤ) : ℚ) with hd₁
  set d₂ : ℚ := ((now₂ - fadeTime : ℤ) : ℚ) with hd₂
  obtain ⟨f1l, f1u⟩ := F32_bounds hd1
  obtain ⟨f2l, f2u⟩ := F32_bounds hd2
  have hf1 : 0 ≤ F32 d₁ := F32_nonneg hd1
  have hf2 : 0 ≤ F32 d₂ := F32_nonneg hd2
  have hq1 : 0 ≤ F32 d₁ / 500000000 := div_nonneg hf1 (by norm_num)
  have hq2 : 0 ≤ F32 d₂ / 500000000 := div_nonneg hf2 (by norm_num)
  have eq1 : F32 d₁ / 500000000 * 500000000 = F32 d₁ := by field_simp
  have eq2 : F32 d₂ / 500000000 * 500000000 = F32 d₂ := by field_simp
  obtain ⟨g1l, g1u⟩ := F32_bounds hq1
  obtain ⟨g2l, g2u⟩ := F32_bounds hq2
  have hg1 : 0 ≤ F32 (F32 d₁ / 500000000) := F32_nonneg hq1
  have hg2 : 0 ≤ F32 (F32 d₂ / 500000000) := F32_nonneg hq2
  have ha1 := F32_err (1 - F32 (F32 d₁ / 500000000))
  have ha2 := F32_err (1 - F32 (F32 d₂ / 500000000))
  have hy1 : |1 - F32 (F32 d₁ / 500000000)| ≤ 1 + F32 (F32 d₁ / 500000000) := by
    rw [abs_le]; constructor <;> linarith
  have hy2 : |1 - F32 (F32 d₂ / 500000000)| ≤ 1 + F32 (F32 d₂ / 500000000) := by
    rw [abs_le]; constructor <;> linarith
  have hb1 : |F32 (1 - F32 (F32 d₁ / 500000000)) - (1 - F32 (F32 d₁ / 500000000))|
      ≤ (1 + F32 (F32 d₁ / 500000000)) / 16777216 :=
    le_trans ha1 (div_le_div_of_nonneg_right hy1 (by norm_num))
  have hb2 : |F32 (1 - F32 (F32 d₂ / 500000000)) - (1 - F32 (F32 d₂ / 500000000))|
      ≤ (1 + F32 (F32 d₂ / 500000000)) / 16777216 :=
    le_trans ha2 (div_le_div_of_nonneg_right hy2 (by norm_num))
  rw [abs_le] at hb1 hb2
  linarith [hb1.1, hb1.2, hb2.1, hb2.2]

theorem F32_neg_of_neg {y : ℚ} (h : y < 0) : F32 y < 0 := by
  unfold F32 roundNE
  rw [if_pos h]
  have h1 := (roundMag_bounds (p := 24) (by norm_num) (q := -y) (by linarith)).1
  have h2 : (0:ℚ) < (2:ℚ) ^ expOf (-y) := by positivity
  linarith

/-- A fading frame whose `alpha` is not negative is less than `2^31` ns into the fade. -/
theorem alphaOf_nonneg_age {now fadeTime : ℤ} (h0 : fadeTime ≤ now)
    (ha : 0 ≤ alphaOf true now fadeTime) : now - fadeTime + 1000 ≤ 2147483648 := by
  rw [alphaOf_fading] at ha
  unfold i2f at ha
  have hd : (0:ℚ) ≤ ((now - fadeTime : ℤ) : ℚ) := by exact_mod_cast (by omega : 0 ≤ now - fadeTime)
  set d : ℚ := ((now - fadeTime : ℤ) : ℚ) with hd_def
  have hg : F32 (F32 d / 500000000) ≤ 1 := by
    by_contra hcon
    have := F32_neg_of_neg (y := 1 - F32 (F32 d / 500000000)) (by linarith [not_le.mp hcon])
    linarith
  obtain ⟨f1, _⟩ := F32_bounds hd
  have hf : 0 ≤ F32 d := F32_nonneg hd
  have hq : 0 ≤ F32 d / 500000000 := div_nonneg hf (by norm_num)
  obtain ⟨g1, _⟩ := F32_bounds hq
  have eq1 : F32 d / 500000000 * 500000000 = F32 d := by field_simp
  have hfin : d + 1000 ≤ 2147483648 := by linarith
  have : ((now - fadeTime + 1000 : ℤ) : ℚ) ≤ ((2147483648 : ℤ) : ℚ) := by
    push_cast
    rw [hd_def] at hfin
    push_cast at hfin
    linarith
  exact_mod_cast this

/-- Between a fading frame that does not end the loop and a later frame at least 1000 ns
after it, `alpha` strictly decreases. -/
theorem alphaOf_strict_of_nonneg {now₁ now₂ fadeTime : ℤ} (h0 : fadeTime ≤ now₁)
    (hgap : now₁ + 1000 ≤ now₂) (ha : 0 ≤ alphaOf true now₁ fadeTime) :
    alphaOf true now₂ fadeTime < alphaOf true now₁ fadeTime := by
  have hage := alphaOf_nonneg_age h0 ha
  by_cases hmax : now₂ - fadeTime ≤ 2147483648
  · exact alphaOf_strict h0 hgap hmax
  · have h1 : alphaOf true now₂ fadeTime ≤ alphaOf true (fadeTime + 2147483648) fadeTime :=
      alphaOf_antitone fadeTime (by omega)
    have h2 : alphaOf true (fadeTime + 2147483648) fadeTime < alphaOf true now₁ fadeTime :=
      alphaOf_strict h0 (by omega) (by omega)
    exact lt_of_le_of_lt h1 h2

/-- With the pacing of lines 443-445 honoured, successive frames start at least 8333000 ns
apart. -/
theorem clockOrdered_gap {i i₂ : FrameInput} (h : ClockOrdered i i₂) :
    i.now + 8333000 ≤ i₂.now := by
  obtain ⟨h1, h2⟩ := h
  unfold us2ns ns2us at h2
  rw [Int.tdiv_eq_ediv (by omega) (by norm_num)] at h2
  omega

/-! ## The per-frame claims -/

/-- C2 (as amended): when the invert deadline is set and the elapsed time has reached it, the
frame resets `startTime` to `now`, toggles `bInverted` and draws with angle `0`, but it does
not clear the deadline: `nextInvert` keeps its value in this frame and in the next one, so no
deadline is computed afresh for the next half-cycle. -/
theorem c2_toggle_keeps_deadline (s : LoopState) (i i₂ : FrameInput)
    (hset : s.nextInvert ≠ -1) (hdue : s.nextInvert ≤ i2d (i.now - s.startTime)) :
    (frame s i).state.startTime = i.now ∧
    (frame s i).state.bInverted = (!s.bInverted) ∧
    (frame s i).angle = 0 ∧
    (frame s i).state.nextInvert = s.nextInvert ∧
    (frame (frame s i).state i₂).state.nextInvert = s.nextInvert := by
  have ht : toggles s i.now = true := (toggles_iff s i.now).mpr ⟨hset, hdue⟩
  have h1 := frame_nextInvert_of_set s i hset
  refine ⟨?_, ?_, ?_, h1, ?_⟩
  · rw [frame_startTime]; simp [startTimeOf, ht]
  · rw [frame_bInverted]; simp [ht]
  · rw [frame_angle, timeOf_of_toggles ht, angleOf_zero]
  · rw [frame_nextInvert_of_set _ i₂ (by rw [h1]; exact hset), h1]

/-- C3: with `now ≥ startTime`, the angle of a frame is `min(90, elapsed / framePeriod)`
evaluated as the code does (`double` division, result converted to `float`), where `elapsed`
is `now - startTime` after the reset of that frame and `framePeriod = us2ns(8333 / 1.65f)`
is 5050000 ns; this value is within `1/100000` of the exact `min(90, elapsed / 5050000)`.
The angle lies in `[0, 90]`, is `0` in a frame that toggles the inversion, and does not
decrease from a frame to the next one when that next frame does not toggle. -/
theorem c3_angle_formula_and_bounds (s : LoopState) (i i₂ : FrameInput)
    (hclock : s.startTime ≤ i.now) (hnext : i.now ≤ i₂.now) :
    (frame s i).angle =
      min 90 (F32 (F64 (i2d (i.now - (frame s i).state.startTime) / i2d framePeriod))) ∧
    framePeriod = 5050000 ∧
    |(frame s i).angle -
      min 90 (((i.now - (frame s i).state.startTime : ℤ) : ℚ) / 5050000)| ≤ 1 / 100000 ∧
    0 ≤ (frame s i).angle ∧ (frame s i).angle ≤ 90 ∧
    (toggles s i.now = true → (frame s i).angle = 0) ∧
    (toggles (frame s i).state i₂.now = false →
      (frame s i).angle ≤ (frame (frame s i).state i₂).angle) := by
  have hst : (frame s i).state.startTime ≤ i.now := by
    rw [frame_startTime]; unfold startTimeOf; split_ifs <;> omega
  have htime : 0 ≤ timeOf s i.now := by
    rw [timeOf_eq, ← frame_startTime]
    exact i2d_nonneg (by omega)
  refine ⟨?_, framePeriod_eq, ?_, ?_, ?_, ?_, ?_⟩
  · rw [frame_angle, angleOf_eq_min, timeOf_eq, frame_startTime]; rfl
  · rw [frame_angle, timeOf_eq, ← frame_startTime]
    exact angleOf_close (by omega)
  · rw [frame_angle]; exact angleOf_nonneg htime
  · rw [frame_angle]; exact angleOf_le _
  · intro ht
    rw [frame_angle, timeOf_of_toggles ht, angleOf_zero]
  · intro hno
    rw [frame_angle, frame_angle]
    apply angleOf_mono
    have e2 : timeOf (frame s i).state i₂.now = i2d (i₂.now - (frame s i).state.startTime) := by
      unfold timeOf; rw [hno]; simp
    rw [e2, timeOf_eq, ← frame_startTime]
    exact i2d_mono (by omega)

/-- C4: once fading has begun `fadeTime` is not changed again and the values
`alpha = 1 - (now - fadeTime) / 500000000.f` of successive frames are non-increasing under a
monotonic clock; from a frame that goes on to a next iteration to that next frame, with the
readings of a monotonic clock on which the pacing sleep of lines 443-445 is honoured, the
clock strictly advances and `alpha` strictly decreases. `shouldExit` becomes true exactly in
a frame whose `alpha < 0` (a frame with `alpha ≥ 0` leaves it false and, when presenting
succeeds, goes on to the next iteration), that frame is still drawn and presented and, when
presenting succeeds, it is the last iteration; `shouldExit` is never set in a frame where
`fading` is false. -/
theorem c4_fade_alpha_and_exit (s : LoopState) (i i₂ : FrameInput) (rest : List FrameInput)
    (hf : s.fading = true) (hs : s.shouldExit = false) (hclock : i.now ≤ i₂.now) :
    ((frame s i).state.fading = true ∧ (frame s i).state.fadeTime = s.fadeTime) ∧
    (frame s i).alpha = F32 (1 - F32 (i2f (i.now - s.fadeTime) / 500000000)) ∧
    (frame (frame s i).state i₂).alpha ≤ (frame s i).alpha ∧
    (s.fadeTime ≤ i.now → (frame s i).again = true → ClockOrdered i i₂ →
      i.now < i₂.now ∧ (frame (frame s i).state i₂).alpha < (frame s i).alpha) ∧
    ((frame s i).state.shouldExit = true ↔ (frame s i).alpha < 0) ∧
    ((frame s i).alpha < 0 → i.swapOk = true →
      loop s (i :: rest) = some ((frame s i).events, (frame s i).state) ∧
      Event.drawTiles (frame s i).angle (frame s i).state.bInverted ∈ (frame s i).events ∧
      Event.eglSwapBuffers true ∈ (frame s i).events) ∧
    (0 ≤ (frame s i).alpha → i.swapOk = true → (frame s i).again = true) ∧
    (∀ (s₀ : LoopState) (i₀ : FrameInput), s₀.fading = false →
      (frame s₀ i₀).state.shouldExit = s₀.shouldExit) := by
  have hfad : (frame s i).state.fading = true := by
    rw [frame_fading]; simp [hf]
  have hft : (frame s i).state.fadeTime = s.fadeTime := by
    rw [frame_fadeTime]; simp [hf]
  have hal : (frame s i).alpha = alphaOf true i.now s.fadeTime := by
    rw [frame_alpha, hf]
  have hex : (frame s i).state.shouldExit = true ↔ (frame s i).alpha < 0 := by
    rw [frame_shouldExit, hal]; exact shouldExitOf_fading i.now hf hs
  refine ⟨⟨hfad, hft⟩, ?_, ?_, ?_, hex, ?_, ?_, ?_⟩
  · rw [hal, alphaOf_fading]
  · rw [frame_alpha, hfad, hft, hal]
    exact alphaOf_antitone s.fadeTime hclock
  · intro h0 hag hord
    have hgap := clockOrdered_gap hord
    have hse := frame_again_shouldExit s i hag
    have hnn : 0 ≤ alphaOf true i.now s.fadeTime := by
      rw [← hal]
      by_contra hcon
      rw [hex.mpr (not_le.mp hcon)] at hse
      exact absurd hse (by decide)
    refine ⟨by omega, ?_⟩
    rw [frame_alpha, hfad, hft, hal]
    exact alphaOf_strict_of_nonneg h0 (by omega) hnn
  · intro hneg hswap
    have hstop : (frame s i).again = false := by
      rw [frame_again, hswap, ← frame_shouldExit, hex.mpr hneg]; rfl
    refine ⟨loop_cons_stop s i rest hstop, ?_, ?_⟩
    · rw [frame_events, frame_bInverted, frame_angle]
      simp [drawEvents]
    · rw [frame_events, hswap]
      simp
  · intro hpos hswap
    have hno : (frame s i).state.shouldExit = false := by
      cases hcase : (frame s i).state.shouldExit
      · rfl
      · exact absurd (hex.mp hcase) (not_lt.mpr hpos)
    rw [frame_again, hswap, ← frame_shouldExit, hno]; rfl
  · intro s₀ i₀ h₀
    rw [frame_shouldExit, shouldExitOf_not_fading _ h₀]

/-- C10 (as amended): when the exit poll of a frame observes the shutdown signal while
`fading = false`, the next frame runs with `fading = true` and with `fadeTime` equal to the
clock reading taken at that poll; the next frame's `alpha` is computed from its own `now`
minus that reading, is at most `1` when the clock is monotonic, and is `1` when the two
readings coincide. When the signal is not observed and `fading` is false, `fading` stays
false. -/
theorem c10_fade_starts_at_poll_time (s : LoopState) (i i₂ : FrameInput)
    (hf : s.fading = false) (hs : s.shouldExit = false) (hswap : i.swapOk = true)
    (hsig : checkExit i.exitnow s.mExitPending = true) (hclock : i.tFade ≤ i₂.now) :
    (frame s i).again = true ∧
    (frame s i).state.fading = true ∧
    (frame s i).state.fadeTime = i.tFade ∧
    (frame (frame s i).state i₂).alpha = F32 (1 - F32 (i2f (i₂.now - i.tFade) / 500000000)) ∧
    (frame (frame s i).state i₂).alpha ≤ 1 ∧
    (i₂.now = i.tFade → (frame (frame s i).state i₂).alpha = 1) ∧
    (∀ (s₀ : LoopState) (i₀ : FrameInput), s₀.fading = false →
      checkExit i₀.exitnow s₀.mExitPending = false → (frame s₀ i₀).state.fading = false) := by
  have hfad : (frame s i).state.fading = true := by
    rw [frame_fading]; simp [hf, hsig, hswap]
  have hft : (frame s i).state.fadeTime = i.tFade := by
    rw [frame_fadeTime]; simp [hf, hsig, hswap]
  have hal : (frame (frame s i).state i₂).alpha = alphaOf true i₂.now i.tFade := by
    rw [frame_alpha, hfad, hft]
  refine ⟨?_, hfad, hft, ?_, ?_, ?_, ?_⟩
  · rw [frame_again, hswap, shouldExitOf_not_fading _ hf, hs]; rfl
  · rw [hal, alphaOf_fading]
  · rw [hal]; exact alphaOf_le_one hclock
  · intro h; rw [hal, h]; exact alphaOf_self _
  · intro s₀ i₀ h₀ hno
    rw [frame_fading]; simp [h₀, hno]

/-! ## Presenting, pacing and leaving the loop -/

theorem pace_eq (now tSleep : ℤ) :
    pace now tSleep =
      if ns2us (tSleep - now) < 8333 then [Event.usleep (8333 - ns2us (tSleep - now))] else [] := by
  unfold pace
  simp only
  split_ifs <;> first | rfl | omega

theorem runOn_loop (rest : List FrameInput) :
    ∀ (pre : List FrameInput) (s s' : LoopState) (ev : List Event),
      runOn s pre = some (ev, s') →
      loop s (pre ++ rest) = (loop s' rest).map (fun r => (ev ++ r.1, r.2))
  | [], s, s', ev, h => by
    simp only [runOn, Option.some.injEq, Prod.mk.injEq] at h
    obtain ⟨h1, h2⟩ := h
    subst h1; subst h2
    cases hl : loop s rest <;> simp [hl]
  | i :: pre, s, s', ev, h => by
    unfold runOn at h
    split_ifs at h with ha
    cases hr : runOn (frame s i).state pre with
    | none => simp [hr] at h
    | some r =>
      obtain ⟨ev₁, s₁⟩ := r
      simp only [hr, Option.some.injEq, Prod.mk.injEq] at h
      obtain ⟨rfl, rfl⟩ := h
      have ih := runOn_loop rest pre (frame s i).state s₁ ev₁ hr
      rw [List.cons_append, loop_cons_again s i (pre ++ rest) ha, ih]
      cases loop s₁ rest <;> simp

theorem drawEvents_no_delete (b : Bool) (angle alpha : ℚ) :
    Event.glDeleteTextures ∉ drawEvents b angle alpha := by
  simp [drawEvents]

theorem frame_no_delete (s : LoopState) (i : FrameInput) :
    Event.glDeleteTextures ∉ (frame s i).events := by
  rw [frame_events, pace_eq]
  have hd := drawEvents_no_delete (if toggles s i.now then !s.bInverted else s.bInverted)
    (angleOf (timeOf s i.now)) (alphaOf s.fading i.now s.fadeTime)
  intro hmem
  rcases List.mem_append.mp hmem with h | h
  · exact hd h
  · cases hsw : i.swapOk
    · simp [hsw] at h
    · by_cases hp : ns2us (i.tSleep - i.now) < 8333 <;> simp [hsw, hp] at h

theorem runOn_no_delete :
    ∀ (pre : List FrameInput) (s s' : LoopState) (ev : List Event),
      runOn s pre = some (ev, s') → Event.glDeleteTextures ∉ ev
  | [], s, s', ev, h => by
    simp only [runOn, Option.some.injEq, Prod.mk.injEq] at h
    obtain ⟨rfl, rfl⟩ := h
    simp
  | i :: pre, s, s', ev, h => by
    unfold runOn at h
    split_ifs at h with ha
    cases hr : runOn (frame s i).state pre with
    | none => simp [hr] at h
    | some r =>
      obtain ⟨ev₁, s₁⟩ := r
      simp only [hr, Option.some.injEq, Prod.mk.injEq] at h
      obtain ⟨rfl, rfl⟩ := h
      have ih := runOn_no_delete pre (frame s i).state s₁ ev₁ hr
      simp [frame_no_delete s i, ih]

/-- C9: when `eglSwapBuffers` fails in an iteration reached after the frames `pre`, the loop
ends in that iteration: its events are the drawing followed by the failed present, with no
`usleep` and no exit poll, `fading`, `fadeTime` and the exit flag of the thread are as before
the iteration, whatever inputs remain are not consumed, and `android()` then releases the
texture, once, and returns. -/
theorem c9_present_failure_ends_loop (startTime fadeTime : ℤ) (mExitPending : Bool)
    (pre rest : List FrameInput) (ev : List Event) (s : LoopState) (i : FrameInput)
    (hpre : runOn (initState startTime fadeTime mExitPending) pre = some (ev, s))
    (hfail : i.swapOk = false) :
    (frame s i).again = false ∧
    loop s (i :: rest) = some ((frame s i).events, (frame s i).state) ∧
    (frame s i).events =
      drawEvents (frame s i).state.bInverted (frame s i).angle (frame s i).alpha ++
        [Event.eglSwapBuffers false] ∧
    (∀ us, Event.usleep us ∉ (frame s i).events) ∧
    Event.checkExit ∉ (frame s i).events ∧
    (frame s i).state.fading = s.fading ∧
    (frame s i).state.fadeTime = s.fadeTime ∧
    (frame s i).state.mExitPending = s.mExitPending ∧
    android startTime fadeTime mExitPending (pre ++ i :: rest) =
      some (ev ++ (frame s i).events ++ [Event.glDeleteTextures], false) ∧
    (ev ++ (frame s i).events ++ [Event.glDeleteTextures]).count Event.glDeleteTextures = 1 := by
  have hstop : (frame s i).again = false := by rw [frame_again, hfail]; rfl
  have hloop := loop_cons_stop s i rest hstop
  have hev : (frame s i).events =
      drawEvents (frame s i).state.bInverted (frame s i).angle (frame s i).alpha ++
        [Event.eglSwapBuffers false] := by
    rw [frame_events, frame_bInverted, frame_angle, frame_alpha, hfail]; rfl
  refine ⟨hstop, hloop, hev, ?_, ?_, ?_, ?_, ?_, ?_, ?_⟩
  · intro us; rw [hev]; simp [drawEvents]
  · rw [hev]; simp [drawEvents]
  · rw [frame_fading, hfail]; rfl
  · rw [frame_fadeTime, hfail]; rfl
  · simp [frame, hfail]
  · unfold android androidFrom
    rw [runOn_loop (i :: rest) pre _ s ev hpre, hloop]
    simp
  · have h1 := runOn_no_delete pre _ s ev hpre
    have h2 := frame_no_delete s i
    rw [List.count_append, List.count_append, List.count_eq_zero.mpr h1,
      List.count_eq_zero.mpr h2]
    simp

/-- C8: the pacing of lines 443-445 at two frame costs below the 12-fps budget of 83333
microseconds. A frame that took 10000 microseconds is not followed by any sleep, and a frame
that took 1000 microseconds is followed by a sleep of 7333 microseconds, not 82333: the
budget the code paces to is 8333 microseconds. -/
theorem c8_pacing_budget_8333 :
    ns2us (10000000 - 0) = 10000 ∧ pace 0 10000000 = [] ∧
    ns2us (1000000 - 0) = 1000 ∧ pace 0 1000000 = [Event.usleep 7333] ∧
    (∀ now tSleep : ℤ, pace now tSleep =
      if ns2us (tSleep - now) < 8333 then [Event.usleep (8333 - ns2us (tSleep - now))]
      else []) :=
  ⟨by decide, by decide, by decide, by decide, pace_eq⟩

/-! ## Image loader -/

theorem exists_upload_append (l₁ l₂ : List GLCall) (h : ∀ c ∈ l₂, c.isUpload = false) :
    (∃ c ∈ l₁ ++ l₂, c.isUpload = true) ↔ (∃ c ∈ l₁, c.isUpload = true) := by
  constructor
  · rintro ⟨c, hc, hu⟩
    rcases List.mem_append.mp hc with h1 | h2
    · exact ⟨c, h1, hu⟩
    · rw [h c h2] at hu; exact absurd hu (by decide)
  · rintro ⟨c, hc, hu⟩
    exact ⟨c, List.mem_append.mpr (Or.inl hc), hu⟩

theorem exists_upload_prepend (l₁ l₂ : List GLCall) (h : ∀ c ∈ l₁, c.isUpload = false) :
    (∃ c ∈ l₁ ++ l₂, c.isUpload = true) ↔ (∃ c ∈ l₂, c.isUpload = true) := by
  constructor
  · rintro ⟨c, hc, hu⟩
    rcases List.mem_append.mp hc with h1 | h2
    · rw [h c h1] at hu; exact absurd hu (by decide)
    · exact ⟨c, h2, hu⟩
  · rintro ⟨c, hc, hu⟩
    exact ⟨c, List.mem_append.mpr (Or.inr hc), hu⟩

theorem uploadAsset_upload_iff (b : Bitmap) :
    (∃ c ∈ uploadAsset b, c.isUpload = true) ↔
      (b.config = Config.kA8_Config ∨ b.config = Config.kARGB_4444_Config ∨
        b.config = Config.kARGB_8888_Config ∨ b.config = Config.kRGB_565_Config) := by
  obtain ⟨cfg, w, h⟩ := b
  cases cfg <;> simp [uploadAsset, GLCall.isUpload]

theorem uploadBuffer_upload_iff (b : Bitmap) :
    (∃ c ∈ uploadBuffer b, c.isUpload = true) ↔
      (b.config = Config.kARGB_8888_Config ∨ b.config = Config.kRGB_565_Config) := by
  obtain ⟨cfg, w, h⟩ := b
  cases cfg <;> simp [uploadBuffer, GLCall.isUpload] <;> split_ifs <;> simp

theorem initTextureBuffer_null_codec : initTextureBuffer none = none := rfl

/-- C5 (as amended): `initTexture` attempts a GPU pixel upload exactly when the bitmap it
reads has one of the pixel formats its switch handles (none for any other format, the empty
bitmap of a failed decode included), but it does not report the other cases: the asset
overload returns `NO_INIT` only when the file cannot be opened and `NO_ERROR` for every
bitmap, and the buffer overload, whenever a codec was found, returns `NO_ERROR` for every
bitmap. -/
theorem c5_initTexture_reports_no_decode_error :
    ((initTextureAsset none).status = Status.NO_INIT ∧ (initTextureAsset none).calls = []) ∧
    (∀ b₀ : Bitmap, (initTextureAsset (some b₀)).status = Status.NO_ERROR ∧
      ((∃ c ∈ (initTextureAsset (some b₀)).calls, c.isUpload = true) ↔
        (b₀.config = Config.kA8_Config ∨ b₀.config = Config.kARGB_4444_Config ∨
          b₀.config = Config.kARGB_8888_Config ∨ b₀.config = Config.kRGB_565_Config))) ∧
    (∀ b : Bitmap, ∃ calls, initTextureBuffer (some b) = some (Status.NO_ERROR, calls) ∧
      ((∃ c ∈ calls, c.isUpload = true) ↔
        (b.config = Config.kARGB_8888_Config ∨ b.config = Config.kRGB_565_Config))) := by
  refine ⟨⟨rfl, rfl⟩, ?_, ?_⟩
  · intro b₀
    refine ⟨rfl, ?_⟩
    rw [← uploadAsset_upload_iff]
    simp only [initTextureAsset]
    rw [exists_upload_append _ _ (by intro c hc; simp at hc; rcases hc with h | h | h | h | h <;> subst h <;> rfl),
      exists_upload_prepend _ _ (by intro c hc; simp at hc; rcases hc with h | h <;> subst h <;> rfl)]
  · intro b
    refine ⟨_, rfl, ?_⟩
    rw [← uploadBuffer_upload_iff]
    exact exists_upload_append _ _ (by intro c hc; simp at hc; subst hc; rfl)

/-! ## Texture sizing -/

theorem clzAux_spec : ∀ (n w : ℕ), 0 < w → w < 2 ^ n →
    ∃ k, k + clzAux n w + 1 = n ∧ 2 ^ k ≤ w ∧ w < 2 ^ (k + 1)
  | 0, w, h0, h1 => by simp at h1; omega
  | n + 1, w, h0, h1 => by
    unfold clzAux
    split_ifs with hw
    · obtain ⟨k, hk, h2, h3⟩ := clzAux_spec n w h0 hw
      exact ⟨k, by omega, h2, h3⟩
    · exact ⟨n, by omega, by omega, h1⟩

/-- For `1 ≤ w ≤ 2^30` the shift amount `k = 31 - clz(w)` satisfies `2^k ≤ w < 2^(k+1)`, and
`texDim w` is `2^k` when `w = 2^k` and `2^(k+1)` otherwise. -/
theorem texDim_cases {w : ℤ} (h1 : 1 ≤ w) (h2 : w ≤ 2 ^ 30) :
    ∃ k : ℕ, k ≤ 30 ∧ (2:ℤ) ^ k ≤ w ∧ w < (2:ℤ) ^ (k + 1) ∧
      ((w = (2:ℤ) ^ k ∧ texDim w = (2:ℤ) ^ k) ∨
       ((2:ℤ) ^ k < w ∧ k < 30 ∧ texDim w = (2:ℤ) ^ (k + 1))) := by
  have hn : (w.toNat : ℤ) = w := Int.toNat_of_nonneg (by omega)
  have hpos : 0 < w.toNat := by omega
  have hlt : w.toNat < 2 ^ 32 := by
    have : w < 2 ^ 32 := by
      calc w ≤ 2 ^ 30 := h2
        _ < 2 ^ 32 := by norm_num
    omega
  obtain ⟨k, hk, hlo, hhi⟩ := clzAux_spec 32 w.toNat hpos hlt
  have hlo' : (2:ℤ) ^ k ≤ w := by
    rw [← hn]; exact_mod_cast hlo
  have hhi' : w < (2:ℤ) ^ (k + 1) := by
    rw [← hn]; exact_mod_cast hhi
  have hk30 : k ≤ 30 := by
    by_contra hcon
    have : (2:ℤ) ^ 31 ≤ (2:ℤ) ^ k := pow_le_pow_right₀ (by norm_num) (by omega)
    have : (2:ℤ) ^ 30 < (2:ℤ) ^ 31 := by norm_num
    omega
  have hsh : 31 - clz32 w.toNat = k := by unfold clz32; omega
  refine ⟨k, hk30, hlo', hhi', ?_⟩
  unfold texDim
  simp only [hsh]
  rcases hlo'.lt_or_eq with hlt2 | heq
  · right
    have hk29 : k < 30 := by
      by_contra hcon
      have hk : k = 30 := by omega
      rw [hk] at hlt2
      omega
    refine ⟨hlt2, hk29, ?_⟩
    rw [if_pos hlt2]
    have e : (2:ℤ) ^ k * 2 = (2:ℤ) ^ (k + 1) := by ring
    rw [e]
    have hle : (2:ℤ) ^ (k + 1) ≤ (2:ℤ) ^ 30 := pow_le_pow_right₀ (by norm_num) (by omega)
    have hge : (0:ℤ) < (2:ℤ) ^ (k + 1) := by positivity
    unfold wrap32
    norm_num at hle ⊢
    omega
  · left
    refine ⟨heq.symm, ?_⟩
    rw [if_neg (by omega)]


theorem texDim_props {w : ℤ} (h1 : 1 ≤ w) (h2 : w ≤ 2 ^ 30) :
    IsPow2 (texDim w) ∧ w ≤ texDim w ∧ texDim w < 2 * w ∧
    (∀ m, IsPow2 m → w ≤ m → texDim w ≤ m) ∧ (texDim w = w ↔ IsPow2 w) := by
  obtain ⟨k, hk, hlo, hhi, hc⟩ := texDim_cases h1 h2
  have e : (2:ℤ) ^ (k + 1) = 2 * (2:ℤ) ^ k := by ring
  rcases hc with ⟨hw, ht⟩ | ⟨hlt, hk29, ht⟩
  · refine ⟨⟨k, ht⟩, by omega, by omega, ?_, ?_⟩
    · intro m _ hm; omega
    · exact ⟨fun _ => ⟨k, hw⟩, fun _ => by omega⟩
  · refine ⟨⟨k + 1, ht⟩, by omega, by omega, ?_, ?_⟩
    · rintro m ⟨j, rfl⟩ hm
      rw [ht]
      apply pow_le_pow_right₀ (by norm_num)
      by_contra hcon
      have : (2:ℤ) ^ j ≤ (2:ℤ) ^ k := pow_le_pow_right₀ (by norm_num) (by omega)
      omega
    · constructor
      · intro h; omega
      · rintro ⟨j, hj⟩
        exfalso
        rw [hj] at hlt hhi
        have a : k < j := (pow_lt_pow_iff_right₀ (by norm_num : (1:ℤ) < 2)).mp hlt
        have b : j < k + 1 := (pow_lt_pow_iff_right₀ (by norm_num : (1:ℤ) < 2)).mp hhi
        omega

/-- C6: for decoded dimensions `1 ≤ w, h ≤ 2^30`, `texDim` (the value of `tw`, `th` in
`initTexture(buffer, len)`) is the smallest power of two that is `≥` the dimension: it is a
power of two, `≥ w`, `< 2*w`, below every other power of two `≥ w`, and equals `w` exactly
when `w` is a power of two; the test `tw != w || th != h` that selects the padded path
holds exactly when `w` or `h` is not a power of two, and for the two pixel formats that are
uploaded the padded path (`glTexSubImage2D`) is taken exactly then. -/
theorem c6_texDim_smallest_power_of_two (w h : ℤ)
    (hw1 : 1 ≤ w) (hw2 : w ≤ 2 ^ 30) (hh1 : 1 ≤ h) (hh2 : h ≤ 2 ^ 30) :
    (IsPow2 (texDim w) ∧ w ≤ texDim w ∧ texDim w < 2 * w ∧
      (∀ m, IsPow2 m → w ≤ m → texDim w ≤ m) ∧ (texDim w = w ↔ IsPow2 w)) ∧
    (IsPow2 (texDim h) ∧ h ≤ texDim h ∧ texDim h < 2 * h ∧
      (∀ m, IsPow2 m → h ≤ m → texDim h ≤ m) ∧ (texDim h = h ↔ IsPow2 h)) ∧
    ((texDim w ≠ w ∨ texDim h ≠ h) ↔ ¬ (IsPow2 w ∧ IsPow2 h)) ∧
    (∀ cfg, cfg = Config.kARGB_8888_Config ∨ cfg = Config.kRGB_565_Config →
      ∃ calls, initTextureBuffer (some ⟨cfg, w, h⟩) = some (Status.NO_ERROR, calls) ∧
        ((∃ c ∈ calls, c.isSubImage = true) ↔ ¬ (IsPow2 w ∧ IsPow2 h))) := by
  have pw := texDim_props hw1 hw2
  have ph := texDim_props hh1 hh2
  have hiff : (texDim w ≠ w ∨ texDim h ≠ h) ↔ ¬ (IsPow2 w ∧ IsPow2 h) := by
    rw [← pw.2.2.2.2, ← ph.2.2.2.2]
    tauto
  refine ⟨pw, ph, hiff, ?_⟩
  intro cfg hcfg
  refine ⟨_, rfl, ?_⟩
  rw [← hiff]
  rcases hcfg with rfl | rfl
  · by_cases hp : texDim w ≠ w ∨ texDim h ≠ h
    · simp [uploadBuffer, hp, GLCall.isSubImage]
    · simp [uploadBuffer, hp, GLCall.isSubImage]
  · by_cases hp : texDim w ≠ w ∨ texDim h ≠ h
    · simp [uploadBuffer, hp, GLCall.isSubImage]
    · simp [uploadBuffer, hp, GLCall.isSubImage]

/-- Witness for C6: a 5 x 8 bitmap gets an 8 x 8 texture. -/
theorem c6_texDim_witness :
    ((1:ℤ) ≤ 5 ∧ (5:ℤ) ≤ 2 ^ 30 ∧ (1:ℤ) ≤ 8 ∧ (8:ℤ) ≤ 2 ^ 30) ∧ texDim 5 = 8 ∧ texDim 8 = 8 ∧
    ((IsPow2 (texDim 5) ∧ (5:ℤ) ≤ texDim 5 ∧ texDim 5 < 2 * 5 ∧
      (∀ m, IsPow2 m → 5 ≤ m → texDim 5 ≤ m) ∧ (texDim 5 = 5 ↔ IsPow2 5)) ∧
    (IsPow2 (texDim 8) ∧ (8:ℤ) ≤ texDim 8 ∧ texDim 8 < 2 * 8 ∧
      (∀ m, IsPow2 m → 8 ≤ m → texDim 8 ≤ m) ∧ (texDim 8 = 8 ↔ IsPow2 8)) ∧
    ((texDim 5 ≠ 5 ∨ texDim 8 ≠ 8) ↔ ¬ (IsPow2 5 ∧ IsPow2 8)) ∧
    (∀ cfg, cfg = Config.kARGB_8888_Config ∨ cfg = Config.kRGB_565_Config →
      ∃ calls, initTextureBuffer (some ⟨cfg, 5, 8⟩) = some (Status.NO_ERROR, calls) ∧
        ((∃ c ∈ calls, c.isSubImage = true) ↔ ¬ (IsPow2 5 ∧ IsPow2 8)))) :=
  ⟨by norm_num, by decide, by decide,
    c6_texDim_smallest_power_of_two 5 8 (by norm_num) (by norm_num) (by norm_num) (by norm_num)⟩

/-! ## Tile layout -/

/-- What the two nested tests of lines 422 and 424 guarantee for a drawn tile. -/
theorem tileStep_some {c : Layout} {b : Bool} {x y : ℤ} {t : Tile}
    (h : tileStep c b x y = some t) :
    (t.finalX < c.mWidth ∨ t.finalY < c.mHeight) ∧ t.finalX > -c.w ∧ t.finalY > -c.h := by
  simp only [tileStep] at h
  split_ifs at h with h1 h2 h3
  simp only [Option.some.injEq] at h
  subst h
  exact ⟨h2, h3.1, h3.2⟩

theorem rowLoop_some (c : Layout) (b : Bool) (x : ℤ) :
    ∀ (fuel : ℕ) (y : ℤ) (ts : List Tile), rowLoop c b x fuel y = some ts →
      ∀ t ∈ ts, (t.finalX < c.mWidth ∨ t.finalY < c.mHeight) ∧ t.finalX > -c.w ∧ t.finalY > -c.h
  | 0, y, ts, h => by simp [rowLoop] at h
  | fuel + 1, y, ts, h => by
    unfold rowLoop at h
    split_ifs at h with hc
    · cases hr : rowLoop c b x fuel (y + c.h) with
      | none => simp [hr] at h
      | some rest =>
        have ih := rowLoop_some c b x fuel (y + c.h) rest hr
        cases ht : tileStep c b x y with
        | none =>
          simp only [hr, ht, Option.some.injEq] at h
          subst h; exact ih
        | some t₀ =>
          simp only [hr, ht, Option.some.injEq] at h
          subst h
          intro t htm
          rcases List.mem_cons.mp htm with rfl | hm
          · exact tileStep_some ht
          · exact ih t hm
    · simp only [Option.some.injEq] at h
      subst h; simp

theorem colLoop_some (c : Layout) (b : Bool) :
    ∀ (fuel : ℕ) (x : ℤ) (ts : List Tile), colLoop c b fuel x = some ts →
      ∀ t ∈ ts, (t.finalX < c.mWidth ∨ t.finalY < c.mHeight) ∧ t.finalX > -c.w ∧ t.finalY > -c.h
  | 0, x, ts, h => by simp [colLoop] at h
  | fuel + 1, x, ts, h => by
    unfold colLoop at h
    split_ifs at h with hc
    · cases hr : rowLoop c b x (4 * c.mHeight.toNat + 1) 0 with
      | none => simp [hr] at h
      | some col =>
        cases hk : colLoop c b fuel (x + c.w) with
        | none => simp [hr, hk] at h
        | some rest =>
          simp only [hr, hk, Option.some.injEq] at h
          subst h
          intro t htm
          rcases List.mem_append.mp htm with hm | hm
          · exact rowLoop_some c b x _ _ col hr t hm
          · exact colLoop_some c b fuel (x + c.w) rest hk t hm
    · simp only [Option.some.injEq] at h
      subst h; simp

/-- Every tile the layout loop draws passed the tests of lines 422 and 424: it is not fully
left of or above the display, and it is left of the right edge or above the bottom edge. -/
theorem tilePositions_some (c : Layout) (b : Bool) (ts : List Tile)
    (h : tilePositions c b = some ts) :
    ∀ t ∈ ts, (t.finalX < c.mWidth ∨ t.finalY < c.mHeight) ∧ t.finalX > -c.w ∧ t.finalY > -c.h :=
  colLoop_some c b _ 0 ts h

/-- C1: for tile 64 x 64, display 256 x 256, not inverted, the tile layout loop draws the tile
of grid step `x = 256, y = 832` at `(-21, 319)`, whose rectangle `[-21, 43) x [319, 383)`
lies below the display: the test of line 422 joins its two comparisons with `||`. -/
theorem c1_tile_below_display_is_drawn :
    tileStep layout64 false 256 832 = some ⟨256, 832, -21, 319⟩ ∧
    ¬ overlapsDisplay layout64 ⟨256, 832, -21, 319⟩ ∧
    ∃ ts, tilePositions layout64 false = some ts ∧ (⟨256, 832, -21, 319⟩ : Tile) ∈ ts := by
  refine ⟨by decide!, by decide!, ?_⟩
  have h : (tilePositions layout64 false).map
      (fun ts => decide ((⟨256, 832, -21, 319⟩ : Tile) ∈ ts)) = some true := by decide!
  cases hts : tilePositions layout64 false with
  | none => simp [hts] at h
  | some ts => exact ⟨ts, rfl, by simpa [hts] using h⟩

/-- C7 (counterexample): for tile 64 x 64, display 256 x 256, not inverted, grid step
`x = 64, y = 0` is not drawn at all, so it is not the first drawn position. -/
theorem c7_step_64_0_is_culled :
    Int.tmod (Int.tdiv 64 layout64.w) 3 = 1 ∧
    tileStep layout64 false 64 0 = none ∧
    ¬ ((tilePositions layout64 false).map List.head? =
      some (some ⟨64, 0, (finalPos layout64 false 64 0).1, (finalPos layout64 false 64 0).2⟩)) := by
  refine ⟨by decide, by decide!, by decide!⟩

/-- C7 (as amended): for tile 64 x 64, display 256 x 256, not inverted, grid step
`x = 64, y = 0` (column 1, `col3 = 0`) passes the modulo-3 test but its position
`(-449, -534)` is culled by the test of line 424; the first position drawn is the one of grid
step `x = 256, y = 768` (column 4, `col3 = 1`, which passes the modulo-3 test), at the
coordinates `(-43, 255)` that the jitter formula gives for that step. -/
theorem c7_first_drawn_tile :
    (tilePositions layout64 false).map List.head? = some (some ⟨256, 768, -43, 255⟩) ∧
    finalPos layout64 false 256 768 = (-43, 255) ∧
    Int.tmod (Int.tdiv 256 layout64.w) 3 = 1 ∧ Int.tdiv (Int.tdiv 256 layout64.w) 3 = 1 ∧
    Int.tmod (Int.tdiv 64 layout64.w) 3 = 1 ∧ Int.tdiv (Int.tdiv 64 layout64.w) 3 = 0 ∧
    finalPos layout64 false 64 0 = (-449, -534) ∧
    tileStep layout64 false 64 0 = none := by
  refine ⟨by decide!, by decide!, by decide, by decide, by decide, by decide, by decide!,
    by decide!⟩

/-! ## The tile layout loop terminates -/

theorem rowLoop_terminates (c : Layout) (b : Bool) (x : ℤ) (hh : 1 ≤ c.h) :
    ∀ (fuel : ℕ) (y : ℤ), 0 ≤ y → 4 * c.mHeight - y < fuel → 1 ≤ fuel →
      ∃ ts, rowLoop c b x fuel y = some ts
  | 0, y, _, _, h1 => by omega
  | fuel + 1, y, hy, hf, _ => by
    unfold rowLoop
    split_ifs with hc
    · have hlt : y < 4 * c.mHeight := by
        by_contra hcon
        exact loop_test_fails hy (not_lt.mp hcon) hc
      obtain ⟨rest, hr⟩ := rowLoop_terminates c b x hh fuel (y + c.h) (by omega)
        (by push_cast at hf ⊢; omega) (by omega)
      rw [hr]
      cases tileStep c b x y <;> simp
    · exact ⟨[], rfl⟩

theorem colLoop_terminates (c : Layout) (b : Bool) (hw : 1 ≤ c.w) (hh : 1 ≤ c.h) :
    ∀ (fuel : ℕ) (x : ℤ), 0 ≤ x → 4 * c.mWidth - x < fuel → 1 ≤ fuel →
      ∃ ts, colLoop c b fuel x = some ts
  | 0, x, _, _, h1 => by omega
  | fuel + 1, x, hx, hf, _ => by
    unfold colLoop
    split_ifs with hc
    · have hlt : x < 4 * c.mWidth := by
        by_contra hcon
        exact loop_test_fails hx (not_lt.mp hcon) hc
      have hH : c.mHeight ≤ (c.mHeight.toNat : ℤ) := Int.self_le_toNat _
      obtain ⟨col, hcol⟩ := rowLoop_terminates c b x hh (4 * c.mHeight.toNat + 1) 0 le_rfl
        (by push_cast; omega) (by omega)
      obtain ⟨rest, hr⟩ := colLoop_terminates c b hw hh fuel (x + c.w) (by omega)
        (by push_cast at hf ⊢; omega) (by omega)
      rw [hcol, hr]
      exact ⟨col ++ rest, rfl⟩
    · exact ⟨[], rfl⟩

/-- For tiles of positive width and height the tile layout loop terminates within the fuel
`tilePositions` gives it: one pass always yields a list of drawn tiles. -/
theorem tilePositions_terminates (c : Layout) (b : Bool) (hw : 1 ≤ c.w) (hh : 1 ≤ c.h) :
    ∃ ts, tilePositions c b = some ts := by
  have hW : c.mWidth ≤ (c.mWidth.toNat : ℤ) := Int.self_le_toNat _
  exact colLoop_terminates c b hw hh (4 * c.mWidth.toNat + 1) 0 le_rfl
    (by push_cast; omega) (by omega)

/-! ## Concrete runs -/

/-- C2 (counterexample): starting from the initial state at time 0, the frame at 454.5 ms
sets the deadline 509500000; the frame at 509.5 ms reaches it, resets `startTime` and toggles
`bInverted`, and afterwards the deadline is still 509500000, not `-1`. -/
theorem c2_deadline_not_cleared :
    (frame (initState 0 0 false) saturateFrame).state.nextInvert = 509500000 ∧
    toggles (frame (initState 0 0 false) saturateFrame).state toggleFrame.now = true ∧
    (frame (frame (initState 0 0 false) saturateFrame).state toggleFrame).state.startTime
      = toggleFrame.now ∧
    (frame (frame (initState 0 0 false) saturateFrame).state toggleFrame).state.bInverted
      = true ∧
    (frame (frame (initState 0 0 false) saturateFrame).state toggleFrame).state.nextInvert
      ≠ -1 := by
  refine ⟨by decide!, by decide!, by decide!, by decide!, by decide!⟩

/-- Witness for C2: the frame at 509.5 ms in the holding state. -/
theorem c2_toggle_keeps_deadline_witness :
    (holdingState.nextInvert ≠ -1 ∧
      holdingState.nextInvert ≤ i2d (toggleFrame.now - holdingState.startTime)) ∧
    ((frame holdingState toggleFrame).state.startTime = toggleFrame.now ∧
    (frame holdingState toggleFrame).state.bInverted = (!holdingState.bInverted) ∧
    (frame holdingState toggleFrame).angle = 0 ∧
    (frame holdingState toggleFrame).state.nextInvert = holdingState.nextInvert ∧
    (frame (frame holdingState toggleFrame).state saturateFrame).state.nextInvert
      = holdingState.nextInvert) :=
  ⟨⟨by decide!, by decide!⟩,
    c2_toggle_keeps_deadline holdingState toggleFrame saturateFrame (by decide!) (by decide!)⟩

/-- Witness for C3: the frame at 454.5 ms draws with angle 90, and the frame that toggles
at 509.5 ms draws with angle 0. -/
theorem c3_angle_witness :
    ((initState 0 0 false).startTime ≤ saturateFrame.now ∧ saturateFrame.now ≤ toggleFrame.now) ∧
    (frame (initState 0 0 false) saturateFrame).angle = 90 ∧
    (frame holdingState toggleFrame).angle = 0 ∧
    ((frame (initState 0 0 false) saturateFrame).angle =
      min 90 (F32 (F64 (i2d (saturateFrame.now -
        (frame (initState 0 0 false) saturateFrame).state.startTime) / i2d framePeriod))) ∧
    framePeriod = 5050000 ∧
    |(frame (initState 0 0 false) saturateFrame).angle -
      min 90 (((saturateFrame.now -
        (frame (initState 0 0 false) saturateFrame).state.startTime : ℤ) : ℚ) / 5050000)|
      ≤ 1 / 100000 ∧
    0 ≤ (frame (initState 0 0 false) saturateFrame).angle ∧
    (frame (initState 0 0 false) saturateFrame).angle ≤ 90 ∧
    (toggles (initState 0 0 false) saturateFrame.now = true →
      (frame (initState 0 0 false) saturateFrame).angle = 0) ∧
    (toggles (frame (initState 0 0 false) saturateFrame).state toggleFrame.now = false →
      (frame (initState 0 0 false) saturateFrame).angle ≤
        (frame (frame (initState 0 0 false) saturateFrame).state toggleFrame).angle)) :=
  ⟨⟨by decide, by decide⟩, by decide!,
    (c3_angle_formula_and_bounds holdingState toggleFrame toggleFrame
      (by decide) (by decide)).2.2.2.2.2.1 (by decide!),
    c3_angle_formula_and_bounds (initState 0 0 false) saturateFrame toggleFrame
      (by decide) (by decide)⟩

/-- Witness for C4: fading since time 0, a frame at 16.8 ms that sleeps 8233 microseconds
and the next frame at 600 ms, which has `alpha < 0` and ends the loop. -/
theorem c4_fade_witness :
    (fadingState.fading = true ∧ fadingState.shouldExit = false ∧
      fadeFrameA.now ≤ fadeFrameEnd.now) ∧
    (fadingState.fadeTime ≤ fadeFrameA.now ∧ (frame fadingState fadeFrameA).again = true ∧
      ClockOrdered fadeFrameA fadeFrameEnd) ∧
    (frame (frame fadingState fadeFrameA).state fadeFrameEnd).alpha < 0 ∧
    (fadeFrameA.now < fadeFrameEnd.now ∧
      (frame (frame fadingState fadeFrameA).state fadeFrameEnd).alpha
        < (frame fadingState fadeFrameA).alpha) ∧
    (loop (frame fadingState fadeFrameA).state [fadeFrameEnd] =
        some ((frame (frame fadingState fadeFrameA).state fadeFrameEnd).events,
          (frame (frame fadingState fadeFrameA).state fadeFrameEnd).state) ∧
      Event.drawTiles (frame (frame fadingState fadeFrameA).state fadeFrameEnd).angle
        (frame (frame fadingState fadeFrameA).state fadeFrameEnd).state.bInverted
        ∈ (frame (frame fadingState fadeFrameA).state fadeFrameEnd).events ∧
      Event.eglSwapBuffers true
        ∈ (frame (frame fadingState fadeFrameA).state fadeFrameEnd).events) ∧
    (((frame fadingState fadeFrameA).state.fading = true ∧
      (frame fadingState fadeFrameA).state.fadeTime = fadingState.fadeTime) ∧
    (frame fadingState fadeFrameA).alpha =
      F32 (1 - F32 (i2f (fadeFrameA.now - fadingState.fadeTime) / 500000000)) ∧
    (frame (frame fadingState fadeFrameA).state fadeFrameEnd).alpha
      ≤ (frame fadingState fadeFrameA).alpha ∧
    (fadingState.fadeTime ≤ fadeFrameA.now → (frame fadingState fadeFrameA).again = true →
      ClockOrdered fadeFrameA fadeFrameEnd →
      fadeFrameA.now < fadeFrameEnd.now ∧
      (frame (frame fadingState fadeFrameA).state fadeFrameEnd).alpha
        < (frame fadingState fadeFrameA).alpha) ∧
    ((frame fadingState fadeFrameA).state.shouldExit = true ↔
      (frame fadingState fadeFrameA).alpha < 0) ∧
    ((frame fadingState fadeFrameA).alpha < 0 → fadeFrameA.swapOk = true →
      loop fadingState (fadeFrameA :: [fadeFrameEnd]) =
        some ((frame fadingState fadeFrameA).events, (frame fadingState fadeFrameA).state) ∧
      Event.drawTiles (frame fadingState fadeFrameA).angle
        (frame fadingState fadeFrameA).state.bInverted ∈ (frame fadingState fadeFrameA).events ∧
      Event.eglSwapBuffers true ∈ (frame fadingState fadeFrameA).events) ∧
    (0 ≤ (frame fadingState fadeFrameA).alpha → fadeFrameA.swapOk = true →
      (frame fadingState fadeFrameA).again = true) ∧
    (∀ (s₀ : LoopState) (i₀ : FrameInput), s₀.fading = false →
      (frame s₀ i₀).state.shouldExit = s₀.shouldExit)) :=
  ⟨⟨by decide, by decide, by decide⟩, ⟨by decide, by decide!, by decide⟩, by decide!,
    (c4_fade_alpha_and_exit fadingState fadeFrameA fadeFrameEnd [fadeFrameEnd]
      (by decide) (by decide) (by decide)).2.2.2.1 (by decide) (by decide!) (by decide),
    (c4_fade_alpha_and_exit (frame fadingState fadeFrameA).state fadeFrameEnd fadeFrameEnd []
      (by decide!) (by decide!) (by decide)).2.2.2.2.2.1 (by decide!) (by decide),
    c4_fade_alpha_and_exit fadingState fadeFrameA fadeFrameEnd [fadeFrameEnd]
      (by decide) (by decide) (by decide)⟩

/-- C5 (counterexample): bytes that do not decode leave an empty bitmap. The asset overload
then uploads nothing and returns `NO_ERROR`, and so does the buffer overload when a codec was
found; the buffer overload, given a bitmap in the unsupported format `kA8_Config`, uploads
nothing and returns `NO_ERROR` as well. -/
theorem c5_undecodable_image_returns_NO_ERROR :
    (initTextureAsset (some ⟨Config.kNo_Config, 0, 0⟩)).status = Status.NO_ERROR ∧
    (∀ c ∈ (initTextureAsset (some ⟨Config.kNo_Config, 0, 0⟩)).calls, c.isUpload = false) ∧
    initTextureBuffer (some ⟨Config.kNo_Config, 0, 0⟩) =
      some (Status.NO_ERROR, [GLCall.glTexParameteriv_crop 0 0 0 0]) ∧
    initTextureBuffer (some ⟨Config.kA8_Config, 4, 4⟩) =
      some (Status.NO_ERROR, [GLCall.glTexParameteriv_crop 0 4 4 (-4)]) := by
  refine ⟨by decide, by decide!, by decide, by decide⟩

/-- Witness for C9: the second frame of a run loses the surface. -/
theorem c9_present_failure_witness :
    (runOn (initState 0 0 false) [pollFrame] =
        some ((frame (initState 0 0 false) pollFrame).events,
          (frame (initState 0 0 false) pollFrame).state) ∧
      lostSurfaceFrame.swapOk = false) ∧
    android 0 0 false ([pollFrame] ++ lostSurfaceFrame :: [afterPollFrame]) =
      some ((frame (initState 0 0 false) pollFrame).events ++
        (frame (frame (initState 0 0 false) pollFrame).state lostSurfaceFrame).events ++
        [Event.glDeleteTextures], false) :=
  ⟨⟨by decide!, by decide⟩,
    (c9_present_failure_ends_loop 0 0 false [pollFrame] [afterPollFrame]
      (frame (initState 0 0 false) pollFrame).events
      (frame (initState 0 0 false) pollFrame).state lostSurfaceFrame
      (by decide!) (by decide)).2.2.2.2.2.2.2.2.1⟩

/-- C10 (counterexample): the poll of the first frame observes the exit property and reads the
clock at 8400000 ns; the next frame reads its `now` at 8401000 ns. It runs with
`fading = true`, but `fadeTime` differs from its `now` and its `alpha` is not `1`. -/
theorem c10_fadeTime_differs_from_next_now :
    (initState 0 0 false).fading = false ∧
    checkExit pollFrame.exitnow (initState 0 0 false).mExitPending = true ∧
    (frame (initState 0 0 false) pollFrame).again = true ∧
    (frame (initState 0 0 false) pollFrame).state.fading = true ∧
    (frame (initState 0 0 false) pollFrame).state.fadeTime ≠ afterPollFrame.now ∧
    (frame (frame (initState 0 0 false) pollFrame).state afterPollFrame).alpha ≠ 1 := by
  refine ⟨by decide, by decide, by decide!, by decide!, by decide!, by decide!⟩

/-- Witness for C10: the first frame observes the exit property. -/
theorem c10_fade_starts_witness :
    ((initState 0 0 false).fading = false ∧ (initState 0 0 false).shouldExit = false ∧
      pollFrame.swapOk = true ∧
      checkExit pollFrame.exitnow (initState 0 0 false).mExitPending = true ∧
      pollFrame.tFade ≤ afterPollFrame.now) ∧
    ((frame (initState 0 0 false) pollFrame).again = true ∧
    (frame (initState 0 0 false) pollFrame).state.fading = true ∧
    (frame (initState 0 0 false) pollFrame).state.fadeTime = pollFrame.tFade ∧
    (frame (frame (initState 0 0 false) pollFrame).state afterPollFrame).alpha =
      F32 (1 - F32 (i2f (afterPollFrame.now - pollFrame.tFade) / 500000000)) ∧
    (frame (frame (initState 0 0 false) pollFrame).state afterPollFrame).alpha ≤ 1 ∧
    (afterPollFrame.now = pollFrame.tFade →
      (frame (frame (initState 0 0 false) pollFrame).state afterPollFrame).alpha = 1) ∧
    (∀ (s₀ : LoopState) (i₀ : FrameInput), s₀.fading = false →
      checkExit i₀.exitnow s₀.mExitPending = false → (frame s₀ i₀).state.fading = false)) :=
  ⟨⟨by decide, by decide, by decide, by decide, by decide⟩,
    c10_fade_starts_at_poll_time (initState 0 0 false) pollFrame afterPollFrame
      (by decide) (by decide) (by decide) (by decide) (by decide)⟩

end BootAnimation
